import Mathlib

/-!
Verification of the neopult repository (a per-channel orchestration daemon
with a window manager, plugin system and process supervisor).

The development shallowly embeds the Rust sources:

* `Neopult.Geom` — the geometry grammar `AlignedGeometry::from_str` and
  `AlignedGeometry::into_geometry` from `src/window_manager.rs`.
* `Neopult.OldWM` — the window-manager state machine of
  `src/window_manager.rs` (mode transitions, primary-window bookkeeping,
  screen-resolution changes).
* `Neopult.SpecWM` — the window manager of the `neopult` crate.  The file
  `neopult/src/window_manager.rs` is not part of the source tree (only its
  module declaration in `neopult/src/main.rs` and its callers in
  `neopult/src/plugin_system/api.rs` are), so this component is modelled
  from the specification.
* `Neopult.Plugin` — module/action registration, the `Store`, the stale-PID
  sweep and `escape_html` from `neopult/src/plugin_system.rs` and
  `neopult/src/plugin_system/api.rs`.

Strings are modelled as `List Char`; `u16` values as `Nat` with explicit
bounds; fallible code returns `Option`.
-/

namespace Neopult

/-! ## Geometry grammar (`src/window_manager.rs`) -/

/-- Window alignment, from `enum Alignment`. -/
inductive Alignment where
  | TopLeft
  | TopRight
  | BottomRight
  | BottomLeft
deriving DecidableEq, Repr

/-- Mirror of `struct AlignedGeometry` (all fields `u16` in the source,
modelled as `Nat`; parsing enforces the `u16` bound). -/
structure AlignedGeometry where
  x_offset : Nat
  y_offset : Nat
  width : Nat
  height : Nat
  alignment : Alignment
deriving DecidableEq, Repr

/-- Numeric value of a digit string, most significant digit first. -/
def digitsToNat (s : List Char) : Nat :=
  s.foldl (fun acc c => acc * 10 + (c.toNat - 48)) 0

/-- Parsing of a plain (unsigned, unprefixed) decimal digit string with the
`u16` bound, the digits-only part of Rust's `u16::from_str`: fails on the
empty string, on any non-digit character, and on overflow.  (Checking the
bound on the final value is equivalent to Rust's per-step overflow check
because the accumulated value is monotone in the digits consumed.) -/
def parseDigits (s : List Char) : Option Nat :=
  if s ≠ [] ∧ (∀ c ∈ s, c.isDigit) ∧ digitsToNat s ≤ 65535 then
    some (digitsToNat s)
  else
    none

/-- Rust's `u16::from_str`: an optional single leading `+` sign followed by
a non-empty digit string whose value fits in `u16`.  (Rust's unsigned
integer parser accepts a leading `+` and rejects a leading `-`.) -/
def parseU16 (s : List Char) : Option Nat :=
  match s with
  | [] => parseDigits []
  | c :: rest => if c = '+' then parseDigits rest else parseDigits (c :: rest)

/-- Model of `s.chars().position(|c| c == t)` followed by slicing the input
into the part before and the part after the first occurrence of `t`:
`splitAtChar t s = some (pre, post)` iff `s = pre ++ t :: post` with `t`
not occurring in `pre`. -/
def splitAtChar (t : Char) : List Char → Option (List Char × List Char)
  | [] => none
  | c :: cs =>
    if c = t then some ([], cs)
    else (splitAtChar t cs).map (fun p => (c :: p.1, p.2))

/-- Character class used by the sign search in `AlignedGeometry::from_str`. -/
def isSignChar (c : Char) : Prop := c = '+' ∨ c = '-'

instance (c : Char) : Decidable (isSignChar c) := by
  unfold isSignChar; infer_instance

/-- Model of `s.chars().enumerate().find(|&(_, c)| c == '+' || c == '-')`
followed by slicing: returns the part before the first sign character, the
sign character itself, and the part after it. -/
def splitAtSign : List Char → Option (List Char × Char × List Char)
  | [] => none
  | c :: cs =>
    if isSignChar c then some ([], c, cs)
    else (splitAtSign cs).map (fun p => (c :: p.1, p.2.1, p.2.2))

/-- Alignment selection from the two offset signs, from the `match
(x_offset_sign, y_offset_sign)` in `AlignedGeometry::from_str`.  The two
arguments are always sign characters at the call site, so the final
catch-all of the source (`unreachable!`) collapses with the `('+', '-')`
row. -/
def alignmentOfSigns (x y : Char) : Alignment :=
  if x = '+' then
    if y = '+' then Alignment.TopLeft else Alignment.BottomLeft
  else
    if y = '+' then Alignment.TopRight else Alignment.BottomRight

/-- Embedding of `AlignedGeometry::from_str` (`impl FromStr for
AlignedGeometry`): split at the first `x`, parse the width; split the rest
at the first sign character, parse the height; split the rest at the next
sign character, parse the x offset; parse the remainder as the y offset;
derive the alignment from the two signs. -/
def aligned_geometry_from_str (s : List Char) : Option AlignedGeometry :=
  (splitAtChar 'x' s).bind (fun p1 =>
    (parseU16 p1.1).bind (fun width =>
      (splitAtSign p1.2).bind (fun p2 =>
        (parseU16 p2.1).bind (fun height =>
          (splitAtSign p2.2.2).bind (fun p3 =>
            (parseU16 p3.1).bind (fun xOff =>
              (parseU16 p3.2.2).map (fun yOff =>
                ⟨xOff, yOff, width, height,
                 alignmentOfSigns p2.2.1 p3.2.1⟩)))))))

/-- Mirror of `AlignedGeometry::from_width_height`. -/
def AlignedGeometry.from_width_height (width height : Nat) : AlignedGeometry :=
  ⟨0, 0, width, height, Alignment.TopLeft⟩

/-- Coordinate pair computed by `AlignedGeometry::into_geometry`.  The
source computes `x` and `y` in `u16` arithmetic (`wm.screen_width -
self.width - self.x_offset` and the analogous expression for `y`); a
subtraction that would underflow is modelled as `none` (in Rust it panics
in debug builds and wraps in release builds, in either case leaving the
screen).  The final `as i16` casts of the source are left out: the claims
are about the unsigned coordinates. -/
def AlignedGeometry.into_geometry (g : AlignedGeometry) (screenW screenH : Nat) :
    Option (Nat × Nat) :=
  match g.alignment with
  | Alignment.TopLeft => some (g.x_offset, g.y_offset)
  | Alignment.TopRight =>
    if g.width + g.x_offset ≤ screenW then
      some (screenW - g.width - g.x_offset, g.y_offset)
    else none
  | Alignment.BottomRight =>
    if g.width + g.x_offset ≤ screenW then
      if g.height + g.y_offset ≤ screenH then
        some (screenW - g.width - g.x_offset, screenH - g.height - g.y_offset)
      else none
    else none
  | Alignment.BottomLeft =>
    if g.height + g.y_offset ≤ screenH then
      some (g.x_offset, screenH - g.height - g.y_offset)
    else none

/-! ### Specification-side descriptions of the grammar

These definitions follow the words of the specification (and of claim C2)
and are compared against `aligned_geometry_from_str` above. -/

/-- Specification-side: a non-negative decimal numeral fitting `u16` — a
non-empty string of decimal digits whose value is at most `65535`. -/
def IsNumeralStr (s : List Char) : Prop :=
  s ≠ [] ∧ (∀ c ∈ s, c.isDigit) ∧ digitsToNat s ≤ 65535

/-- Specification-side (amended): a string accepted by Rust's
`u16::from_str` — a numeral optionally preceded by a single `+`. -/
def IsU16Str (s : List Char) : Prop :=
  IsNumeralStr s ∨ ∃ t, s = '+' :: t ∧ IsNumeralStr t

/-- Numeric value of a string accepted by `u16::from_str`. -/
def u16Val (s : List Char) : Nat :=
  match s with
  | [] => digitsToNat []
  | c :: rest => if c = '+' then digitsToNat rest else digitsToNat (c :: rest)

/-- Specification-side sign table: `(+,+) ↦ TopLeft`, `(-,+) ↦ TopRight`,
`(-,-) ↦ BottomRight`, `(+,-) ↦ BottomLeft`. -/
def SpecAlignment (s1 s2 : Char) (a : Alignment) : Prop :=
  (s1 = '+' ∧ s2 = '+' ∧ a = Alignment.TopLeft) ∨
  (s1 = '-' ∧ s2 = '+' ∧ a = Alignment.TopRight) ∨
  (s1 = '-' ∧ s2 = '-' ∧ a = Alignment.BottomRight) ∨
  (s1 = '+' ∧ s2 = '-' ∧ a = Alignment.BottomLeft)

/-- Specification-side form claimed by C2: the input is `W 'x' H s1 X s2 Y`
with `W, H, X, Y` non-negative decimal numerals fitting `u16` and `s1, s2`
sign characters, and the parsed tuple matches the components with the
alignment given by the sign table. -/
def ClaimedForm (s : List Char) (g : AlignedGeometry) : Prop :=
  ∃ W H X Y s1 s2,
    s = W ++ 'x' :: (H ++ s1 :: (X ++ s2 :: Y)) ∧
    IsNumeralStr W ∧ IsNumeralStr H ∧ IsNumeralStr X ∧ IsNumeralStr Y ∧
    isSignChar s1 ∧ isSignChar s2 ∧
    SpecAlignment s1 s2 g.alignment ∧
    g.width = digitsToNat W ∧ g.height = digitsToNat H ∧
    g.x_offset = digitsToNat X ∧ g.y_offset = digitsToNat Y

/-- Specification-side form after amendment: as `ClaimedForm`, except that
the width component and the final y-offset component may additionally carry
a single leading `+` (accepted by Rust's `u16::from_str`); the height and
x-offset components cannot, because the parser cuts them at the first sign
character. -/
def AmendedForm (s : List Char) (g : AlignedGeometry) : Prop :=
  ∃ W H X Y s1 s2,
    s = W ++ 'x' :: (H ++ s1 :: (X ++ s2 :: Y)) ∧
    IsU16Str W ∧ IsNumeralStr H ∧ IsNumeralStr X ∧ IsU16Str Y ∧
    isSignChar s1 ∧ isSignChar s2 ∧
    SpecAlignment s1 s2 g.alignment ∧
    g.width = u16Val W ∧ g.height = digitsToNat H ∧
    g.x_offset = digitsToNat X ∧ g.y_offset = u16Val Y

/-! ## Association-list helpers

`HashMap<ManagedWid, ManagedWindow>` is modelled as an association list.
`updateA` and `removeA` act on every entry with the given key; under the
no-duplicate-keys invariant maintained by the state machine this agrees
with the hash map. -/

/-- First value stored under a key. -/
def lookupA {α : Type} : List (Nat × α) → Nat → Option α
  | [], _ => none
  | (k, v) :: t, id => if k = id then some v else lookupA t id

/-- Apply `f` to every value stored under a key. -/
def updateA {α : Type} (f : α → α) : List (Nat × α) → Nat → List (Nat × α)
  | [], _ => []
  | (k, v) :: t, id =>
    if k = id then (k, f v) :: updateA f t id else (k, v) :: updateA f t id

/-- Remove every entry stored under a key. -/
def removeA {α : Type} (l : List (Nat × α)) (id : Nat) : List (Nat × α) :=
  l.filter (fun p => p.1 ≠ id)

namespace OldWM

/-! ## Window-manager state machine (`src/window_manager.rs`)

Only the state the claims are about is embedded: the managed-window map,
the primary window, the monotone id counter, and the tracked screen size
together with the RandR size range.  X requests and script callbacks that
do not feed back into this state (`ConfigureWindow`, map/unmap,
`set_geometry` callbacks) are elided. -/

/-- Mirror of `enum Mode`. -/
inductive Mode where
  | Max (width height : Nat)
  | Min
  | Hidden
deriving DecidableEq, Repr

/-- Mirror of `enum WindowVariant`; the X window id and the virtual-window
name are kept, the virtual-window callbacks live on the script side. -/
inductive WindowVariant where
  | XWindow (window : Nat)
  | VirtualWindow (name : List Char)
deriving DecidableEq, Repr

/-- Mirror of `struct ManagedWindow`.  `min_geometry` holds the
`MinGeometry::Fixed` payload: the `Dynamic` variant's `get_geometry` is
`todo!()` (a panic) in the source, so it is not modelled. -/
structure ManagedWindow where
  id : Nat
  variant : WindowVariant
  min_geometry : AlignedGeometry
  mode : Mode
deriving DecidableEq, Repr

/-- Reply of RandR's `GetScreenSizeRange`, constant data of the X server. -/
structure ScreenSizeRange where
  min_width : Nat
  min_height : Nat
  max_width : Nat
  max_height : Nat
deriving DecidableEq, Repr

/-- Mirror of `struct WindowManager` (connection and atom handles elided;
the CRTC size reported by the X server is assumed to stay in lockstep with
the tracked `screen_width`/`screen_height`, which the source maintains). -/
structure WindowManager where
  screen_width : Nat
  screen_height : Nat
  size_range : ScreenSizeRange
  current_id : Nat
  managed_windows : List (Nat × ManagedWindow)
  primary_window : Option Nat
deriving DecidableEq, Repr

/-- Embedding of `WindowManager::change_screen_resolution`.  The bound
check is kept exactly as written in the source — including the slip of
comparing `target_height` against `min_width()` — and a failed check is
`none`, modelling the `panic!` (the tracked screen size is then left
unchanged).  When the current size equals the target the function returns
early; otherwise the RandR two-phase resize runs and the tracked size is
set to the target. -/
def change_screen_resolution (wm : WindowManager) (tw th : Nat) :
    Option WindowManager :=
  let r := wm.size_range
  if tw < r.min_width ∨ r.max_width < tw ∨ th < r.min_width ∨ r.max_height < th then
    none
  else if wm.screen_width = tw ∧ wm.screen_height = th then
    some wm
  else
    some { wm with screen_width := tw, screen_height := th }

/-- Embedding of `WindowManager::reposition_windows` restricted to its
effect on the tracked state: when a primary window exists and is in `Max`
mode, the screen resolution is changed to its max size (a panic inside
`change_screen_resolution` leaves the tracked size unchanged); the
geometry requests sent for the primary and for every `Min`-mode window do
not alter the tracked state.  A primary that is not in `Max` mode makes
the source bail with an error, leaving the state as is. -/
def reposition_windows (wm : WindowManager) : WindowManager :=
  match wm.primary_window with
  | none => wm
  | some pid =>
    match lookupA wm.managed_windows pid with
    | none => wm
    | some w =>
      match w.mode with
      | Mode.Max a b =>
        match change_screen_resolution wm a b with
        | some wm2 => wm2
        | none => wm
      | _ => wm

/-- Common body of `manage_x_window` and `manage_virtual_window`: insert a
record with the next id and initial mode `Min`, then bump the counter (the
initial min-geometry request has no effect on the tracked state). -/
def manage_window (wm : WindowManager) (variant : WindowVariant)
    (min_geometry : AlignedGeometry) : WindowManager :=
  { wm with
    managed_windows :=
      wm.managed_windows ++
        [(wm.current_id,
          { id := wm.current_id, variant := variant,
            min_geometry := min_geometry, mode := Mode.Min })],
    current_id := wm.current_id + 1 }

/-- Embedding of `WindowManager::max_window`: unknown ids fail without
touching the state; otherwise the window's mode becomes `Max`, it becomes
the primary window, and the windows are repositioned. -/
def max_window (wm : WindowManager) (id w h : Nat) : WindowManager :=
  match lookupA wm.managed_windows id with
  | none => wm
  | some _ =>
    let wm1 := { wm with
      managed_windows :=
        updateA (fun win => { win with mode := Mode.Max w h }) wm.managed_windows id }
    reposition_windows { wm1 with primary_window := some id }

/-- Decide `matches!(mode, Mode::Max { .. })`. -/
def isMaxMode : Mode → Bool
  | Mode.Max _ _ => true
  | _ => false

/-- Embedding of `WindowManager::find_new_primary_window`: the first
managed window in `Max` mode, if any. -/
def find_new_primary_window (wm : WindowManager) : Option Nat :=
  (wm.managed_windows.find? (fun p => isMaxMode p.2.mode)).map (fun p => p.2.id)

/-- Embedding of `WindowManager::min_window`: the window's mode becomes
`Min`; when it was the primary window a new primary is selected among the
`Max`-mode windows and the windows are repositioned. -/
def min_window (wm : WindowManager) (id : Nat) : WindowManager :=
  match lookupA wm.managed_windows id with
  | none => wm
  | some _ =>
    let wm1 := { wm with
      managed_windows :=
        updateA (fun win => { win with mode := Mode.Min }) wm.managed_windows id }
    if wm1.primary_window = some id then
      reposition_windows { wm1 with primary_window := find_new_primary_window wm1 }
    else
      wm1

/-- Embedding of `WindowManager::hide_window`: the window's mode becomes
`Hidden`; when it was shown and was the primary window a new primary is
selected and the windows are repositioned. -/
def hide_window (wm : WindowManager) (id : Nat) : WindowManager :=
  match lookupA wm.managed_windows id with
  | none => wm
  | some w =>
    let wm1 := { wm with
      managed_windows :=
        updateA (fun win => { win with mode := Mode.Hidden }) wm.managed_windows id }
    if w.mode ≠ Mode.Hidden ∧ wm1.primary_window = some id then
      reposition_windows { wm1 with primary_window := find_new_primary_window wm1 }
    else
      wm1

/-- Embedding of `WindowManager::release_window`: the record is removed;
when it was the primary window a new primary is selected among the
remaining windows and the windows are repositioned. -/
def release_window (wm : WindowManager) (id : Nat) : WindowManager :=
  match lookupA wm.managed_windows id with
  | none => wm
  | some w =>
    let wm1 := { wm with managed_windows := removeA wm.managed_windows id }
    if wm1.primary_window = some w.id then
      reposition_windows { wm1 with primary_window := find_new_primary_window wm1 }
    else
      wm1

/-- Public window-manager operations reachable from scripts (claim C1). -/
inductive WMOp where
  | manageX (window : Nat) (min_geometry : AlignedGeometry)
  | manageVirtual (name : List Char) (min_geometry : AlignedGeometry)
  | max (id w h : Nat)
  | min (id : Nat)
  | hide (id : Nat)
  | unclaim (id : Nat)
deriving DecidableEq, Repr

/-- Dispatch one operation. -/
def applyOp (wm : WindowManager) : WMOp → WindowManager
  | WMOp.manageX window g => manage_window wm (WindowVariant.XWindow window) g
  | WMOp.manageVirtual name g => manage_window wm (WindowVariant.VirtualWindow name) g
  | WMOp.max id w h => max_window wm id w h
  | WMOp.min id => min_window wm id
  | WMOp.hide id => hide_window wm id
  | WMOp.unclaim id => release_window wm id

/-- Initial state produced by `WindowManager::init`: no managed windows,
no primary window, id counter at `0`; the screen size and size range come
from the X server. -/
def initWM (w h : Nat) (r : ScreenSizeRange) : WindowManager :=
  { screen_width := w, screen_height := h, size_range := r,
    current_id := 0, managed_windows := [], primary_window := none }

/-- Run a sequence of operations from the initial state. -/
def runOps (w h : Nat) (r : ScreenSizeRange) (ops : List WMOp) : WindowManager :=
  ops.foldl applyOp (initWM w h r)

/-- Inductive invariant of the state machine: stored ids match their keys
and are below the counter, keys are unique, and the primary window (if
any) is a managed window in `Max` mode. -/
def Inv (wm : WindowManager) : Prop :=
  (∀ p ∈ wm.managed_windows, p.2.id = p.1 ∧ p.1 < wm.current_id) ∧
  (wm.managed_windows.map Prod.fst).Nodup ∧
  (∀ pid, wm.primary_window = some pid →
    ∃ w, lookupA wm.managed_windows pid = some w ∧ ∃ a b, w.mode = Mode.Max a b)

end OldWM

namespace SpecWM

/-! ## Window manager of the `neopult` crate (spec-modelled)

The file `neopult/src/window_manager.rs` is missing from the source tree:
`neopult/src/main.rs` declares `mod window_manager;` and
`neopult/src/plugin_system/api.rs` imports `ManagedWid, Margin,
MinGeometry, PrimaryDemotionAction, VirtualWindowCallbacks` from it and
calls `max_window(lua, id, (width, height), margin)`,
`manage_virtual_window(.., primary_demotion_action)` and
`is_primary_window(id)`, none of which exist in the older copy at
`src/window_manager.rs`.  The definitions in this namespace are therefore
modelled from spec §4.1.1–§4.1.3, §8 property 3 and §9 note 4. -/

/-- Modelled from the spec: `PrimaryDemotionAction` of the missing
`neopult/src/window_manager.rs` — what happens to the current primary when
it loses primary status: `Minimize` (the default) or `Hide` (spec §3
"Window", §9 note 4). -/
inductive PrimaryDemotionAction where
  | Minimize
  | Hide
deriving DecidableEq, Repr

/-- Modelled from the spec: the `Margin` option of `max` in the missing
`neopult/src/window_manager.rs`; all four components default to `0`
(`neopult/src/plugin_system/api.rs`, `WindowHandle::max`). -/
structure Margin where
  top : Nat
  right : Nat
  bottom : Nat
  left : Nat
deriving DecidableEq, Repr

/-- Margin with all components zero (`Margin::default()`). -/
def Margin.zero : Margin := ⟨0, 0, 0, 0⟩

/-- Window variant of the `neopult` crate: X-backed or virtual. -/
inductive NVariant where
  | XWindow (window : Nat)
  | VirtualWindow (name : List Char)
deriving DecidableEq, Repr

/-- Modelled from the spec: a managed window of the missing
`neopult/src/window_manager.rs` — id, variant, min-geometry, mode and (for
demotion) the primary-demotion-action (spec §3 "Window"). -/
structure NWindow where
  id : Nat
  variant : NVariant
  min_geometry : AlignedGeometry
  mode : OldWM.Mode
  primary_demotion_action : PrimaryDemotionAction
deriving DecidableEq, Repr

/-- Modelled from the spec: the window-manager state of the missing
`neopult/src/window_manager.rs` (spec §3 "Screen", §4.1). -/
structure NWindowManager where
  screen_width : Nat
  screen_height : Nat
  size_range : OldWM.ScreenSizeRange
  current_id : Nat
  windows : List (Nat × NWindow)
  primary_window : Option Nat
deriving DecidableEq, Repr

/-- Z coordinate used for min-mode windows (`const MIN_Z: u16 = 1`). -/
def MIN_Z : Nat := 1

/-- Z coordinate used for the primary window (`const MAX_Z: u16 = 0`). -/
def MAX_Z : Nat := 0

/-- Observable requests issued by the window manager: `ConfigureWindow`
for X-backed windows, the `set_geometry`/`map`/`unmap` script callbacks
for virtual windows. -/
inductive WMEvent where
  | configureX (wid : Nat) (g : AlignedGeometry) (z : Nat)
  | setGeometry (wid : Nat) (g : AlignedGeometry) (z : Nat)
  | mapWindow (wid : Nat)
  | unmapWindow (wid : Nat)
deriving DecidableEq, Repr

/-- Geometry request for a window: `ConfigureWindow` when X-backed, the
`set_geometry` callback when virtual. -/
def geometryEvent (w : NWindow) (g : AlignedGeometry) (z : Nat) : WMEvent :=
  match w.variant with
  | NVariant.XWindow _ => WMEvent.configureX w.id g z
  | NVariant.VirtualWindow _ => WMEvent.setGeometry w.id g z

/-- Modelled from the spec: the screen resize of the missing
`neopult/src/window_manager.rs` (spec §4.1.3): bound-check each target
dimension against its own RandR bound and fail with a typed, recoverable
error (`none`, leaving the state unchanged) when outside; no-op when the
current size equals the target; otherwise the (two-phase) RandR resize
runs and the tracked size becomes the target. -/
def nchange_screen_resolution (wm : NWindowManager) (tw th : Nat) :
    Option NWindowManager :=
  let r := wm.size_range
  if tw < r.min_width ∨ r.max_width < tw ∨ th < r.min_height ∨ r.max_height < th then
    none
  else if wm.screen_width = tw ∧ wm.screen_height = th then
    some wm
  else
    some { wm with screen_width := tw, screen_height := th }

/-- Placement of the primary window: an X-backed primary sits at
`(left, top)` of the margin with its max size (spec §4.1.1); a virtual
primary gets `AlignedGeometry::from_width_height` and the margin is
ignored. -/
def primaryPlacement (w : NWindow) (margin : Margin) (a b : Nat) : AlignedGeometry :=
  match w.variant with
  | NVariant.XWindow _ => ⟨margin.left, margin.top, a, b, Alignment.TopLeft⟩
  | NVariant.VirtualWindow _ => AlignedGeometry.from_width_height a b

/-- Geometry requests for every `Min`-mode window at its min-geometry and
`MIN_Z` (spec §4.1.2 step 2). -/
def minModeEvents (l : List (Nat × NWindow)) : List WMEvent :=
  l.flatMap (fun p =>
    if p.2.mode = OldWM.Mode.Min then [geometryEvent p.2 p.2.min_geometry MIN_Z] else [])

/-- Modelled from the spec: `reposition_windows` of the missing
`neopult/src/window_manager.rs` (spec §4.1.2, §8 property 3): when a
primary exists and is in `Max{a,b}` mode, configure it at its primary
placement with `MAX_Z` and — only when it is X-backed — change the screen
resolution to `(a,b)` (virtual primaries keep the previous screen size);
then re-apply the min-geometry of every `Min`-mode window.  A primary that
is missing or not in `Max` mode is an error that aborts the procedure. -/
def nreposition_windows (wm : NWindowManager) (margin : Margin) :
    NWindowManager × List WMEvent :=
  match wm.primary_window with
  | none => (wm, minModeEvents wm.windows)
  | some pid =>
    match lookupA wm.windows pid with
    | none => (wm, [])
    | some w =>
      match w.mode with
      | OldWM.Mode.Max a b =>
        let primEv := geometryEvent w (primaryPlacement w margin a b) MAX_Z
        let wm2 :=
          match w.variant with
          | NVariant.XWindow _ =>
            match nchange_screen_resolution wm a b with
            | some wm2 => wm2
            | none => wm
          | NVariant.VirtualWindow _ => wm
        (wm2, primEv :: minModeEvents wm2.windows)
      | _ => (wm, [])

/-- Modelled from the spec: displacement of the prior primary when a
different window becomes primary (spec §4.1.1, §9 note 4), part of
`max_window` of the missing `neopult/src/window_manager.rs`: the prior
primary's own demotion-action decides whether it is minimized (the
default) or hidden and unmapped. -/
def demoteOldPrimary (wm1 : NWindowManager) (oldPrimary : Option Nat) (id : Nat) :
    NWindowManager × List WMEvent :=
  match oldPrimary with
  | none => (wm1, [])
  | some p =>
    if p = id then (wm1, [])
    else
      match lookupA wm1.windows p with
      | none => (wm1, [])
      | some pw =>
        match pw.primary_demotion_action with
        | PrimaryDemotionAction.Minimize =>
          ({ wm1 with
             windows := updateA (fun v => { v with mode := OldWM.Mode.Min }) wm1.windows p },
           [])
        | PrimaryDemotionAction.Hide =>
          ({ wm1 with
             windows := updateA (fun v => { v with mode := OldWM.Mode.Hidden }) wm1.windows p },
           [WMEvent.unmapWindow pw.id])

/-- Modelled from the spec: `max_window` of the missing
`neopult/src/window_manager.rs` (spec §4.1.1 table row `max`, §9 note 4):
an unknown id fails without effect; otherwise the window's mode becomes
`Max{w,h}`, it is mapped when it was hidden, the prior primary is displaced
via `demoteOldPrimary`, the target becomes the primary window, and the
windows are repositioned. -/
def nmax_window (wm : NWindowManager) (id w h : Nat) (margin : Margin) :
    NWindowManager × List WMEvent :=
  match lookupA wm.windows id with
  | none => (wm, [])
  | some win =>
    let mapEvs := if win.mode = OldWM.Mode.Hidden then [WMEvent.mapWindow win.id] else []
    let wm1 := { wm with
      windows := updateA (fun v => { v with mode := OldWM.Mode.Max w h }) wm.windows id }
    let demoted := demoteOldPrimary wm1 wm.primary_window id
    let wm3 := { demoted.1 with primary_window := some id }
    let rep := nreposition_windows wm3 margin
    (rep.1, mapEvs ++ demoted.2 ++ rep.2)

/-- Modelled from the spec: `is_primary_window` of the missing
`neopult/src/window_manager.rs`, called by `WindowHandle::is_primary_window`
in `neopult/src/plugin_system/api.rs`. -/
def nis_primary_window (wm : NWindowManager) (id : Nat) : Bool :=
  wm.primary_window = some id

end SpecWM

namespace Plugin

/-! ## Module and action registry (`neopult/src/plugin_system.rs`,
`neopult/src/plugin_system/api.rs`) -/

/-- Mirror of `struct Action` (the Lua registry key of the callback is
script-side state and is elided). -/
structure Action where
  name : String
  display_name : Option String
deriving DecidableEq, Repr

/-- Mirror of `struct Module`.  `active_actions` is a `HashSet<String>` in
the source, modelled as the list written by the last
`set_active_actions` (membership is the set). -/
structure Module where
  name : String
  display_name : Option String
  plugin_instance_name : String
  actions : List Action
  active_actions : List String
  status : Option String
  message : Option String
deriving DecidableEq, Repr

/-- Mirror of `Module::new`: empty action list, empty active-actions set,
no status, no message. -/
def Module.new (name plugin_instance_name : String) (display_name : Option String) :
    Module :=
  { name := name, display_name := display_name,
    plugin_instance_name := plugin_instance_name,
    actions := [], active_actions := [], status := none, message := none }

/-- Embedding of `ModuleHandle::register_action`: a duplicate name is
rejected with a logged error and leaves the module unchanged; otherwise
the action is appended. -/
def register_action (m : Module) (name : String) (display_name : Option String) :
    Module :=
  if m.actions.any (fun a => a.name = name) then m
  else { m with actions := m.actions ++ [{ name := name, display_name := display_name }] }

/-- Embedding of `ModuleHandle::set_active_actions`: the active-actions
set is cleared and replaced by the given names, with no validation against
the registered actions. -/
def set_active_actions (m : Module) (xs : List String) : Module :=
  { m with active_actions := xs }

/-- Invariant claimed by the spec for C6: every active action names a
registered action of the module. -/
def ActiveActionsSubset (m : Module) : Prop :=
  ∀ x ∈ m.active_actions, ∃ a ∈ m.actions, a.name = x

/-! ## Store (`neopult/src/plugin_system/api.rs`, `impl UserData for Store`)

The store holds an opaque value (the Lua user value) and a
`HashSet<Arc<RegistryKey>>` of subscriber callbacks, modelled as a list of
registry-key ids.  A subscriber callback may call `subscribe` and
`unsubscribe` on the store; its effect on the subscriber set is abstracted
as a function on the subscriber list. -/

/-- Mirror of `struct Store` together with its Lua user value. -/
structure Store (V : Type) where
  value : V
  subscribers : List Nat
deriving Repr

/-- Embedding of the store's `subscribe`: a fresh registry key is inserted
into the subscriber set. -/
def store_subscribe {V : Type} (s : Store V) (key : Nat) : Store V :=
  { s with subscribers := s.subscribers ++ [key] }

/-- Embedding of the store's `unsubscribe`: the subscription's registry
key is removed from the subscriber set. -/
def store_unsubscribe {V : Type} (s : Store V) (key : Nat) : Store V :=
  { s with subscribers := s.subscribers.filter (fun k => k ≠ key) }

/-- Embedding of the store's `set`: the user value is replaced first, the
subscriber set is snapshotted into a vector while the store is borrowed,
and only then is every snapshotted callback invoked with (a clone of) the
new value — so callbacks can mutate the subscriber set (modelled by
`step`, the combined subscribe/unsubscribe effect of the callback with the
given key) without affecting the in-progress dispatch.  The second
component lists the performed callback invocations in order, as
(registry key, argument) pairs. -/
def store_set {V : Type} (step : Nat → List Nat → List Nat) (s : Store V) (v : V) :
    Store V × List (Nat × V) :=
  let snapshot := s.subscribers
  let finalSubs := snapshot.foldl (fun cur k => step k cur) snapshot
  ({ value := v, subscribers := finalSubs }, snapshot.map (fun k => (k, v)))

/-! ## Stale-PID sweep (`neopult/src/plugin_system.rs`,
`clean_old_processes` / `kill_old_process`)

Filenames are lists of characters; the liveness of a PID and whether a
SIGINTed process dies within the grace period are abstracted as boolean
functions (they depend on the operating system and on real time).  Signal
delivery failures and file-removal failures, which the source only logs,
are elided. -/

/-- Mirror of `OLD_PROCESS_SHUTDOWN_GRACE_PERIOD` in milliseconds. -/
def OLD_PROCESS_SHUTDOWN_GRACE_PERIOD_MS : Nat := 2500

/-- Mirror of `OLD_PROCESS_SHUTDOWN_POLL_INTERVAL` in milliseconds. -/
def OLD_PROCESS_SHUTDOWN_POLL_INTERVAL_MS : Nat := 50

/-- Decide whether `p` is a prefix of `s`. -/
def startsWithL : List Char → List Char → Bool
  | [], _ => true
  | _ :: _, [] => false
  | p :: ps, c :: cs => p == c && startsWithL ps cs

/-- Decide whether `suffix` is a suffix of `s`. -/
def endsWithL (suffix s : List Char) : Bool :=
  startsWithL suffix.reverse s.reverse

/-- The filename suffix `.pid`. -/
def pidSuffix : List Char := ['.', 'p', 'i', 'd']

/-- Fuelled helper for `trimEndPid`; the fuel is the string length, ample
because every round removes four characters. -/
def trimEndPidAux : Nat → List Char → List Char
  | 0, s => s
  | Nat.succ fuel, s =>
    if endsWithL pidSuffix s then trimEndPidAux fuel (s.take (s.length - 4)) else s

/-- Model of `filename.trim_end_matches(".pid")`: repeatedly strip a
trailing `.pid`. -/
def trimEndPid (s : List Char) : List Char :=
  trimEndPidAux s.length s

/-- Non-empty all-digit string, without a numeric bound. -/
def parseDigitsUnbounded (s : List Char) : Option Nat :=
  if s ≠ [] ∧ ∀ c ∈ s, c.isDigit then some (digitsToNat s) else none

/-- Rust's `i32::from_str`: an optional single leading sign followed by a
non-empty digit string, bounded to the `i32` range. -/
def parseI32 (s : List Char) : Option Int :=
  match s with
  | '-' :: t =>
    match parseDigitsUnbounded t with
    | some n => if n ≤ 2147483648 then some (-(n : Int)) else none
    | none => none
  | '+' :: t =>
    match parseDigitsUnbounded t with
    | some n => if n ≤ 2147483647 then some (n : Int) else none
    | none => none
  | _ =>
    match parseDigitsUnbounded s with
    | some n => if n ≤ 2147483647 then some (n : Int) else none
    | none => none

/-- Observable actions of the stale-PID sweep. -/
inductive SweepAction where
  | removeFile (name : List Char)
  | sigint (pid : Nat)
  | sigkill (pid : Nat)
  | warnInvalidPid (pid : Int)
  | errorParse (name : List Char)
deriving DecidableEq, Repr

/-- Embedding of `kill_old_process`: send SIGINT, poll the process every
`OLD_PROCESS_SHUTDOWN_POLL_INTERVAL_MS` for up to
`OLD_PROCESS_SHUTDOWN_GRACE_PERIOD_MS`, and send SIGKILL when it is still
alive after the grace period (`survivesGrace`). -/
def kill_old_process (survivesGrace : Nat → Bool) (pid : Nat) : List SweepAction :=
  SweepAction.sigint pid ::
    (if survivesGrace pid then [SweepAction.sigkill pid] else [])

/-- Embedding of the per-file body of `clean_old_processes`: files not
ending in `.pid` are skipped; a stem parsing to a positive pid is checked
for liveness (signal 0), a live process is killed via `kill_old_process`,
and the file is removed in either case; a stem parsing to a non-positive
number is only warned about; an unparseable stem is only logged as an
error. -/
def sweep_file (alive survivesGrace : Nat → Bool) (name : List Char) :
    List SweepAction :=
  if endsWithL pidSuffix name then
    match parseI32 (trimEndPid name) with
    | some pid =>
      if 0 < pid then
        (if alive pid.toNat then kill_old_process survivesGrace pid.toNat else []) ++
          [SweepAction.removeFile name]
      else
        [SweepAction.warnInvalidPid pid]
    | none => [SweepAction.errorParse name]
  else
    []

/-- Embedding of `clean_old_processes`: sweep every directory entry. -/
def clean_old_processes (alive survivesGrace : Nat → Bool)
    (files : List (List Char)) : List SweepAction :=
  files.flatMap (sweep_file alive survivesGrace)

/-! ## `escape_html` (`neopult/src/plugin_system/api.rs`) -/

/-- Model of Rust's `str::replace` for a single-character pattern: every
occurrence of `p` is replaced by `r`. -/
def replaceChar (p : Char) (r : List Char) (s : List Char) : List Char :=
  s.flatMap (fun c => if c = p then r else [c])

/-- The double-quote character. -/
def quoteChar : Char := Char.ofNat 34

/-- The apostrophe character. -/
def aposChar : Char := Char.ofNat 39

/-- The entity for the ampersand. -/
def entAmp : List Char := ['&', 'a', 'm', 'p', ';']

/-- The entity for the less-than sign. -/
def entLt : List Char := ['&', 'l', 't', ';']

/-- The entity for the greater-than sign. -/
def entGt : List Char := ['&', 'g', 't', ';']

/-- The entity for the double quote. -/
def entQuot : List Char := ['&', 'q', 'u', 'o', 't', ';']

/-- The entity for the apostrophe. -/
def entApos : List Char := ['&', '#', '0', '3', '9', ';']

/-- Embedding of `escape_html`: the five replacements in source order,
ampersand first. -/
def escape_html (s : List Char) : List Char :=
  replaceChar aposChar entApos
    (replaceChar quoteChar entQuot
      (replaceChar '>' entGt
        (replaceChar '<' entLt
          (replaceChar '&' entAmp s))))

/-- Per-character encoding; `escape_html` is proved equal to its
`flatMap`. -/
def encodeChar (c : Char) : List Char :=
  if c = '&' then entAmp
  else if c = '<' then entLt
  else if c = '>' then entGt
  else if c = quoteChar then entQuot
  else if c = aposChar then entApos
  else [c]

/-- Fuelled worker for `unescape_html`; the fuel is the input length,
ample because every step consumes at least one character. -/
def unescapeAux : Nat → List Char → List Char
  | 0, s => s
  | _, [] => []
  | Nat.succ fuel, c :: t =>
    if c = '&' ∧ startsWithL ['a', 'm', 'p', ';'] t then
      '&' :: unescapeAux fuel (t.drop 4)
    else if c = '&' ∧ startsWithL ['l', 't', ';'] t then
      '<' :: unescapeAux fuel (t.drop 3)
    else if c = '&' ∧ startsWithL ['g', 't', ';'] t then
      '>' :: unescapeAux fuel (t.drop 3)
    else if c = '&' ∧ startsWithL ['q', 'u', 'o', 't', ';'] t then
      quoteChar :: unescapeAux fuel (t.drop 5)
    else if c = '&' ∧ startsWithL ['#', '0', '3', '9', ';'] t then
      aposChar :: unescapeAux fuel (t.drop 5)
    else
      c :: unescapeAux fuel t

/-- Decoder replacing each of the five entities back by its character,
greedily from the left; used for the round-trip part of C10. -/
def unescape_html (s : List Char) : List Char :=
  unescapeAux s.length s

end Plugin

/-! # Theorems -/

/-! ## Association-list lemmas -/

theorem lookupA_mem {α : Type} {l : List (Nat × α)} {id : Nat} {v : α}
    (h : lookupA l id = some v) : (id, v) ∈ l := by
  induction l with
  | nil => simp [lookupA] at h
  | cons p t ih =>
    obtain ⟨k, w⟩ := p
    rw [lookupA] at h
    by_cases hk : k = id
    · rw [if_pos hk] at h
      injection h with h
      subst hk h
      exact List.mem_cons_self _ _
    · rw [if_neg hk] at h
      exact List.mem_cons_of_mem _ (ih h)

theorem lookupA_of_mem_nodup {α : Type} {l : List (Nat × α)} {k : Nat} {v : α}
    (hn : (l.map Prod.fst).Nodup) (h : (k, v) ∈ l) : lookupA l k = some v := by
  induction l with
  | nil => simp at h
  | cons p t ih =>
    obtain ⟨k', w⟩ := p
    rw [List.map_cons, List.nodup_cons] at hn
    rcases List.mem_cons.1 h with h1 | h1
    · injection h1 with h1a h1b
      subst h1a h1b
      rw [lookupA, if_pos rfl]
    · have hk : k' ≠ k := by
        intro hkk
        subst hkk
        exact hn.1 (List.mem_map.2 ⟨(k', v), h1, rfl⟩)
      rw [lookupA, if_neg hk]
      exact ih hn.2 h1

theorem lookupA_updateA_self {α : Type} (f : α → α) (l : List (Nat × α)) (id : Nat) :
    lookupA (updateA f l id) id = (lookupA l id).map f := by
  induction l with
  | nil => simp [lookupA, updateA]
  | cons p t ih =>
    obtain ⟨k, w⟩ := p
    by_cases hk : k = id
    · rw [updateA, if_pos hk, lookupA, if_pos hk, lookupA, if_pos hk]
      rfl
    · rw [updateA, if_neg hk, lookupA, if_neg hk, lookupA, if_neg hk, ih]

theorem lookupA_updateA_other {α : Type} (f : α → α) (l : List (Nat × α)) {id j : Nat}
    (h : j ≠ id) : lookupA (updateA f l id) j = lookupA l j := by
  induction l with
  | nil => simp [lookupA, updateA]
  | cons p t ih =>
    obtain ⟨k, w⟩ := p
    by_cases hk : k = id
    · have hkj : k ≠ j := by
        intro hkj
        exact h (hkj ▸ hk)
      rw [updateA, if_pos hk, lookupA, if_neg hkj, lookupA, if_neg hkj, ih]
    · by_cases hkj : k = j
      · rw [updateA, if_neg hk, lookupA, if_pos hkj, lookupA, if_pos hkj]
      · rw [updateA, if_neg hk, lookupA, if_neg hkj, lookupA, if_neg hkj, ih]

theorem lookupA_removeA_other {α : Type} (l : List (Nat × α)) {id j : Nat}
    (h : j ≠ id) : lookupA (removeA l id) j = lookupA l j := by
  induction l with
  | nil => simp [lookupA, removeA]
  | cons p t ih =>
    obtain ⟨k, w⟩ := p
    by_cases hk : k = id
    · have hkj : k ≠ j := by
        intro hkj
        exact h (hkj ▸ hk)
      rw [removeA] at ih ⊢
      rw [List.filter_cons]
      rw [if_neg (by simp [hk])]
      rw [lookupA, if_neg hkj]
      exact ih
    · rw [removeA] at ih ⊢
      rw [List.filter_cons]
      rw [if_pos (by simp [hk])]
      rw [lookupA, lookupA]
      by_cases hkj : k = j
      · rw [if_pos hkj, if_pos hkj]
      · rw [if_neg hkj, if_neg hkj]
        exact ih

theorem lookupA_append {α : Type} (l m : List (Nat × α)) (j : Nat) :
    lookupA (l ++ m) j =
      match lookupA l j with
      | some v => some v
      | none => lookupA m j := by
  induction l with
  | nil => simp [lookupA]
  | cons p t ih =>
    obtain ⟨k, w⟩ := p
    by_cases hk : k = j
    · rw [List.cons_append, lookupA, if_pos hk, lookupA, if_pos hk]
    · rw [List.cons_append, lookupA, if_neg hk, lookupA, if_neg hk, ih]

theorem updateA_keys {α : Type} (f : α → α) (l : List (Nat × α)) (id : Nat) :
    (updateA f l id).map Prod.fst = l.map Prod.fst := by
  induction l with
  | nil => rfl
  | cons p t ih =>
    obtain ⟨k, w⟩ := p
    by_cases hk : k = id
    · rw [updateA, if_pos hk, List.map_cons, List.map_cons, ih]
    · rw [updateA, if_neg hk, List.map_cons, List.map_cons, ih]

theorem mem_updateA_elim {α : Type} {f : α → α} {l : List (Nat × α)} {id : Nat}
    {p : Nat × α} (h : p ∈ updateA f l id) :
    p ∈ l ∨ ∃ v, (p.1, v) ∈ l ∧ p = (p.1, f v) := by
  induction l with
  | nil => simp [updateA] at h
  | cons q t ih =>
    obtain ⟨k, w⟩ := q
    by_cases hk : k = id
    · rw [updateA, if_pos hk] at h
      rcases List.mem_cons.1 h with h1 | h1
      · right
        refine ⟨w, ?_, ?_⟩
        · rw [h1]
          exact List.mem_cons_self _ _
        · rw [h1]
      · rcases ih h1 with h2 | ⟨v, hv, hp⟩
        · exact Or.inl (List.mem_cons_of_mem _ h2)
        · exact Or.inr ⟨v, List.mem_cons_of_mem _ hv, hp⟩
    · rw [updateA, if_neg hk] at h
      rcases List.mem_cons.1 h with h1 | h1
      · exact Or.inl (h1 ▸ List.mem_cons_self _ _)
      · rcases ih h1 with h2 | ⟨v, hv, hp⟩
        · exact Or.inl (List.mem_cons_of_mem _ h2)
        · exact Or.inr ⟨v, List.mem_cons_of_mem _ hv, hp⟩

theorem mem_updateA_self {α : Type} (f : α → α) {l : List (Nat × α)} {k : Nat} {v : α}
    (h : (k, v) ∈ l) : (k, f v) ∈ updateA f l k := by
  induction l with
  | nil => simp at h
  | cons q t ih =>
    obtain ⟨k', w⟩ := q
    rcases List.mem_cons.1 h with h1 | h1
    · injection h1 with h1a h1b
      subst h1a h1b
      rw [updateA, if_pos rfl]
      exact List.mem_cons_self _ _
    · by_cases hk : k' = k
      · rw [updateA, if_pos hk]
        exact List.mem_cons_of_mem _ (ih h1)
      · rw [updateA, if_neg hk]
        exact List.mem_cons_of_mem _ (ih h1)

theorem mem_updateA_other {α : Type} (f : α → α) {l : List (Nat × α)} {k id : Nat}
    {v : α} (h : (k, v) ∈ l) (hne : k ≠ id) : (k, v) ∈ updateA f l id := by
  induction l with
  | nil => simp at h
  | cons q t ih =>
    obtain ⟨k', w⟩ := q
    rcases List.mem_cons.1 h with h1 | h1
    · injection h1 with h1a h1b
      subst h1a h1b
      rw [updateA, if_neg hne]
      exact List.mem_cons_self _ _
    · by_cases hk : k' = id
      · rw [updateA, if_pos hk]
        exact List.mem_cons_of_mem _ (ih h1)
      · rw [updateA, if_neg hk]
        exact List.mem_cons_of_mem _ (ih h1)

/-! ## C1: primary-window invariant of the old window manager -/

namespace OldWM

theorem change_screen_resolution_fields {wm wm2 : WindowManager} {a b : Nat}
    (h : change_screen_resolution wm a b = some wm2) :
    wm2.managed_windows = wm.managed_windows ∧
      wm2.primary_window = wm.primary_window ∧ wm2.current_id = wm.current_id := by
  rw [change_screen_resolution] at h
  split at h
  · exact absurd h (by simp)
  · split at h
    · injection h with h
      subst h
      exact ⟨rfl, rfl, rfl⟩
    · injection h with h
      subst h
      exact ⟨rfl, rfl, rfl⟩

theorem reposition_windows_fields (wm : WindowManager) :
    (reposition_windows wm).managed_windows = wm.managed_windows ∧
      (reposition_windows wm).primary_window = wm.primary_window ∧
      (reposition_windows wm).current_id = wm.current_id := by
  rw [reposition_windows]
  split
  · exact ⟨rfl, rfl, rfl⟩
  · split
    · exact ⟨rfl, rfl, rfl⟩
    · split
      · split
        · next h => exact change_screen_resolution_fields h
        · exact ⟨rfl, rfl, rfl⟩
      · exact ⟨rfl, rfl, rfl⟩

theorem inv_reposition {wm : WindowManager} (h : Inv wm) :
    Inv (reposition_windows wm) := by
  obtain ⟨hm, hp, hc⟩ := reposition_windows_fields wm
  obtain ⟨h1, h2, h3⟩ := h
  refine ⟨?_, ?_, ?_⟩
  · rw [hm, hc]
    exact h1
  · rw [hm]
    exact h2
  · intro pid hpid
    rw [hm]
    rw [hp] at hpid
    exact h3 pid hpid

theorem inv_manage {wm : WindowManager} (h : Inv wm) (variant : WindowVariant)
    (g : AlignedGeometry) : Inv (manage_window wm variant g) := by
  obtain ⟨h1, h2, h3⟩ := h
  have hfresh : wm.current_id ∉ wm.managed_windows.map Prod.fst := by
    intro hmem
    rcases List.mem_map.1 hmem with ⟨p, hp, hpe⟩
    have := (h1 p hp).2
    omega
  simp only [manage_window]
  refine ⟨?_, ?_, ?_⟩
  · intro p hp
    simp only at hp
    dsimp only
    rcases List.mem_append.1 hp with h4 | h4
    · have := h1 p h4
      exact ⟨this.1, by omega⟩
    · rcases List.mem_singleton.1 h4 with h5
      subst h5
      exact ⟨rfl, by omega⟩
  · simp only [List.map_append, List.map_cons, List.map_nil]
    rw [List.nodup_append]
    refine ⟨h2, List.nodup_singleton _, ?_⟩
    intro k hk hk2
    rcases List.mem_singleton.1 hk2 with h5
    subst h5
    exact hfresh hk
  · intro pid hpid
    simp only at hpid ⊢
    rcases h3 pid hpid with ⟨w, hw, hmode⟩
    refine ⟨w, ?_, hmode⟩
    rw [lookupA_append, hw]

theorem idsOk_updateA {l : List (Nat × ManagedWindow)} {c id : Nat}
    (f : ManagedWindow → ManagedWindow) (hf : ∀ v, (f v).id = v.id)
    (h1 : ∀ p ∈ l, p.2.id = p.1 ∧ p.1 < c) :
    ∀ p ∈ updateA f l id, p.2.id = p.1 ∧ p.1 < c := by
  intro p hp
  rcases mem_updateA_elim hp with h4 | ⟨v, hv, hpe⟩
  · exact h1 p h4
  · have h5 := h1 (p.1, v) hv
    rw [hpe]
    refine ⟨?_, h5.2⟩
    rw [hf]
    exact h5.1

theorem isMaxMode_iff (m : Mode) : isMaxMode m = true ↔ ∃ a b, m = Mode.Max a b := by
  cases m with
  | Max a b => simp [isMaxMode]
  | Min => simp [isMaxMode]
  | Hidden => simp [isMaxMode]

theorem find_new_primary_spec {wm : WindowManager} {pid : Nat}
    (h1 : ∀ p ∈ wm.managed_windows, p.2.id = p.1 ∧ p.1 < wm.current_id)
    (h2 : (wm.managed_windows.map Prod.fst).Nodup)
    (hf : find_new_primary_window wm = some pid) :
    ∃ w, lookupA wm.managed_windows pid = some w ∧ ∃ a b, w.mode = Mode.Max a b := by
  rw [find_new_primary_window] at hf
  rcases Option.map_eq_some.mp hf with ⟨p, hp, hpe⟩
  have hmem := List.mem_of_find?_eq_some hp
  have hmax := List.find?_some hp
  have hid := (h1 p hmem).1
  rcases (isMaxMode_iff _).1 hmax with ⟨a, b, hab⟩
  refine ⟨p.2, ?_, a, b, hab⟩
  subst hpe
  rw [hid]
  exact lookupA_of_mem_nodup h2 hmem

theorem inv_retarget {wm1 : WindowManager}
    (h1 : ∀ p ∈ wm1.managed_windows, p.2.id = p.1 ∧ p.1 < wm1.current_id)
    (h2 : (wm1.managed_windows.map Prod.fst).Nodup) :
    Inv (reposition_windows
      { wm1 with primary_window := find_new_primary_window wm1 }) := by
  apply inv_reposition
  refine ⟨h1, h2, ?_⟩
  intro pid hpid
  simp only at hpid
  exact find_new_primary_spec h1 h2 hpid

theorem inv_max (wm : WindowManager) (id w h : Nat) (hInv : Inv wm) :
    Inv (max_window wm id w h) := by
  rw [max_window]
  split
  · exact hInv
  · next w0 hl =>
    apply inv_reposition
    obtain ⟨h1, h2, h3⟩ := hInv
    refine ⟨?_, ?_, ?_⟩
    · exact idsOk_updateA _ (fun v => rfl) h1
    · simp only
      rw [updateA_keys]
      exact h2
    · intro pid hpid
      simp only at hpid ⊢
      injection hpid with hpid
      subst hpid
      rw [lookupA_updateA_self, hl]
      exact ⟨_, rfl, w, h, rfl⟩

theorem inv_min (wm : WindowManager) (id : Nat) (hInv : Inv wm) :
    Inv (min_window wm id) := by
  obtain ⟨h1, h2, h3⟩ := hInv
  simp only [min_window]
  split
  · exact ⟨h1, h2, h3⟩
  · next w0 hl =>
    split
    · next hq =>
      exact inv_retarget (idsOk_updateA _ (fun v => rfl) h1)
        (by rw [updateA_keys]; exact h2)
    · next hq =>
      refine ⟨idsOk_updateA _ (fun v => rfl) h1, by rw [updateA_keys]; exact h2, ?_⟩
      intro pid hpid
      simp only at hpid ⊢
      have hne : pid ≠ id := by
        intro hee
        subst hee
        exact hq hpid
      rw [lookupA_updateA_other _ _ hne]
      exact h3 pid hpid

theorem inv_hide (wm : WindowManager) (id : Nat) (hInv : Inv wm) :
    Inv (hide_window wm id) := by
  obtain ⟨h1, h2, h3⟩ := hInv
  simp only [hide_window]
  split
  · exact ⟨h1, h2, h3⟩
  · next w0 hl =>
    split
    · next hq =>
      exact inv_retarget (idsOk_updateA _ (fun v => rfl) h1)
        (by rw [updateA_keys]; exact h2)
    · next hq =>
      refine ⟨idsOk_updateA _ (fun v => rfl) h1, by rw [updateA_keys]; exact h2, ?_⟩
      intro pid hpid
      simp only at hpid ⊢
      have hne : pid ≠ id := by
        intro hee
        rw [hee] at hpid
        rcases h3 id hpid with ⟨w', hw', a, b, hab⟩
        rw [hl] at hw'
        injection hw' with hw'
        refine hq ⟨?_, hpid⟩
        rw [← hw'] at hab
        rw [hab]
        intro hcc
        cases hcc
      rw [lookupA_updateA_other _ _ hne]
      exact h3 pid hpid

theorem inv_release (wm : WindowManager) (id : Nat) (hInv : Inv wm) :
    Inv (release_window wm id) := by
  obtain ⟨h1, h2, h3⟩ := hInv
  have h1' : ∀ p ∈ removeA wm.managed_windows id, p.2.id = p.1 ∧ p.1 < wm.current_id :=
    fun p hp => h1 p (List.mem_of_mem_filter hp)
  have h2' : ((removeA wm.managed_windows id).map Prod.fst).Nodup :=
    ((List.filter_sublist _).map Prod.fst).nodup h2
  simp only [release_window]
  split
  · exact ⟨h1, h2, h3⟩
  · next w0 hl =>
    have hid0 : w0.id = id := (h1 (id, w0) (lookupA_mem hl)).1
    split
    · next hq =>
      exact inv_retarget h1' h2'
    · next hq =>
      refine ⟨h1', h2', ?_⟩
      intro pid hpid
      simp only at hpid ⊢
      have hne : pid ≠ id := by
        intro hee
        subst hee
        rw [hid0] at hq
        exact hq hpid
      rw [lookupA_removeA_other _ hne]
      exact h3 pid hpid

theorem inv_applyOp (wm : WindowManager) (op : WMOp) (hInv : Inv wm) :
    Inv (applyOp wm op) := by
  cases op with
  | manageX window g => exact inv_manage hInv _ _
  | manageVirtual name g => exact inv_manage hInv _ _
  | max id w h => exact inv_max wm id w h hInv
  | min id => exact inv_min wm id hInv
  | hide id => exact inv_hide wm id hInv
  | unclaim id => exact inv_release wm id hInv

theorem inv_initWM (w h : Nat) (r : ScreenSizeRange) : Inv (initWM w h r) := by
  refine ⟨?_, ?_, ?_⟩
  · intro p hp
    simp [initWM] at hp
  · simp [initWM]
  · intro pid hpid
    simp [initWM] at hpid

theorem inv_runOps (w h : Nat) (r : ScreenSizeRange) (ops : List WMOp) :
    Inv (runOps w h r ops) := by
  rw [runOps]
  induction ops generalizing w h r with
  | nil => exact inv_initWM w h r
  | cons op rest ih =>
    rw [List.foldl_cons]
    have : Inv (applyOp (initWM w h r) op) := inv_applyOp _ op (inv_initWM w h r)
    clear ih
    generalize hwm : applyOp (initWM w h r) op = wm at this
    clear hwm
    induction rest generalizing wm with
    | nil => exact this
    | cons op2 rest2 ih2 =>
      rw [List.foldl_cons]
      exact ih2 _ (inv_applyOp _ op2 this)

end OldWM

/-- C1: for every sequence of window-manager operations (`manage_x_window`,
`manage_virtual_window`, `max`, `min`, `hide`, `unclaim`) starting from the
initial empty state, at most one managed window is the primary window at
any time (the primary id is unique), and whenever a primary window exists
it is a managed window whose mode is `Max`. -/
theorem c1_primary_window_invariant (w h : Nat) (r : OldWM.ScreenSizeRange)
    (ops : List OldWM.WMOp) (pid : Nat)
    (hp : (OldWM.runOps w h r ops).primary_window = some pid) :
    (∀ q, (OldWM.runOps w h r ops).primary_window = some q → q = pid) ∧
    ∃ win, lookupA (OldWM.runOps w h r ops).managed_windows pid = some win ∧
      ∃ a b, win.mode = OldWM.Mode.Max a b := by
  refine ⟨?_, ?_⟩
  · intro q hq
    rw [hp] at hq
    injection hq with hq
    exact hq.symm
  · exact (OldWM.inv_runOps w h r ops).2.2 pid hp

theorem c1_primary_window_invariant_witness :
    (OldWM.runOps 1920 1080 ⟨8, 8, 30000, 30000⟩
        [OldWM.WMOp.manageVirtual ['a'] ⟨0, 0, 480, 360, Alignment.BottomRight⟩,
         OldWM.WMOp.max 0 800 600]).primary_window = some 0 ∧
    ∃ win, lookupA (OldWM.runOps 1920 1080 ⟨8, 8, 30000, 30000⟩
        [OldWM.WMOp.manageVirtual ['a'] ⟨0, 0, 480, 360, Alignment.BottomRight⟩,
         OldWM.WMOp.max 0 800 600]).managed_windows 0 = some win ∧
      ∃ a b, win.mode = OldWM.Mode.Max a b :=
  ⟨by decide,
   (c1_primary_window_invariant 1920 1080 ⟨8, 8, 30000, 30000⟩
      [OldWM.WMOp.manageVirtual ['a'] ⟨0, 0, 480, 360, Alignment.BottomRight⟩,
       OldWM.WMOp.max 0 800 600] 0 (by decide)).2⟩

/-- C7: the source's screen-resize bound check compares `target_height`
against `min_width()` instead of `min_height()`, and rejection is a
`panic!` (modelled `none`), not a typed recoverable error.  At the size
range `min 100x50, max 1000x1000` and target `200x60`, both dimensions are
within their own bounds (the claim's check would accept), yet the code
panics; the final conjunct shows the no-op case (current size equals
target) the claim also describes. -/
theorem c7_change_screen_resolution_wrong_axis :
    OldWM.change_screen_resolution
        { screen_width := 640, screen_height := 480,
          size_range := ⟨100, 50, 1000, 1000⟩, current_id := 0,
          managed_windows := [], primary_window := none } 200 60 = none ∧
    ((100 : Nat) ≤ 200 ∧ (200 : Nat) ≤ 1000 ∧ (50 : Nat) ≤ 60 ∧ (60 : Nat) ≤ 1000) ∧
    OldWM.change_screen_resolution
        { screen_width := 640, screen_height := 480,
          size_range := ⟨100, 50, 1000, 1000⟩, current_id := 0,
          managed_windows := [], primary_window := none } 640 480 =
      some { screen_width := 640, screen_height := 480,
             size_range := ⟨100, 50, 1000, 1000⟩, current_id := 0,
             managed_windows := [], primary_window := none } := by
  decide

/-- C9: `into_geometry` underflows in `u16` arithmetic (modelled `none`)
whenever a right-anchored alignment has `width + x_offset` exceeding the
screen width, or a bottom-anchored alignment has `height + y_offset`
exceeding the screen height; under the fitting precondition it is total
and the resulting coordinates keep the window within the screen bounds. -/
theorem c9_into_geometry_fits (g : AlignedGeometry) (W H : Nat) :
    ((g.alignment = Alignment.TopRight ∨ g.alignment = Alignment.BottomRight) →
      W < g.width + g.x_offset → g.into_geometry W H = none) ∧
    ((g.alignment = Alignment.BottomRight ∨ g.alignment = Alignment.BottomLeft) →
      H < g.height + g.y_offset → g.into_geometry W H = none) ∧
    (g.width + g.x_offset ≤ W → g.height + g.y_offset ≤ H →
      ∃ x y, g.into_geometry W H = some (x, y) ∧ x + g.width ≤ W ∧ y + g.height ≤ H) := by
  refine ⟨?_, ?_, ?_⟩
  · intro hal hov
    rcases hal with hh | hh
    · simp only [AlignedGeometry.into_geometry, hh]
      rw [if_neg (by omega)]
    · simp only [AlignedGeometry.into_geometry, hh]
      rw [if_neg (by omega)]
  · intro hal hov
    rcases hal with hh | hh
    · simp only [AlignedGeometry.into_geometry, hh]
      by_cases hw : g.width + g.x_offset ≤ W
      · rw [if_pos hw, if_neg (by omega)]
      · rw [if_neg hw]
    · simp only [AlignedGeometry.into_geometry, hh]
      rw [if_neg (by omega)]
  · intro h1 h2
    cases hal : g.alignment
    · simp only [AlignedGeometry.into_geometry, hal]
      exact ⟨_, _, rfl, by omega, by omega⟩
    · simp only [AlignedGeometry.into_geometry, hal]
      rw [if_pos h1]
      exact ⟨_, _, rfl, by omega, by omega⟩
    · simp only [AlignedGeometry.into_geometry, hal]
      rw [if_pos h1, if_pos h2]
      exact ⟨_, _, rfl, by omega, by omega⟩
    · simp only [AlignedGeometry.into_geometry, hal]
      rw [if_pos h2]
      exact ⟨_, _, rfl, by omega, by omega⟩

/-! ## C2: the geometry grammar -/

theorem splitAtChar_sound {t : Char} {s pre post : List Char}
    (h : splitAtChar t s = some (pre, post)) : s = pre ++ t :: post ∧ t ∉ pre := by
  induction s generalizing pre post with
  | nil => simp [splitAtChar] at h
  | cons c cs ih =>
    rw [splitAtChar] at h
    by_cases hc : c = t
    · rw [if_pos hc] at h
      injection h with h
      rw [Prod.mk.injEq] at h
      obtain ⟨h1, h2⟩ := h
      subst h1 h2 hc
      exact ⟨rfl, by simp⟩
    · rw [if_neg hc] at h
      rcases Option.map_eq_some.mp h with ⟨p, hp, hpe⟩
      obtain ⟨pre', post'⟩ := p
      have hsp := ih hp
      rw [Prod.mk.injEq] at hpe
      obtain ⟨h1, h2⟩ := hpe
      subst h1 h2
      refine ⟨by rw [List.cons_append, hsp.1], ?_⟩
      intro hmem
      rcases List.mem_cons.1 hmem with h3 | h3
      · exact hc h3.symm
      · exact hsp.2 h3

theorem splitAtChar_complete {t : Char} {pre post : List Char} (h : t ∉ pre) :
    splitAtChar t (pre ++ t :: post) = some (pre, post) := by
  induction pre with
  | nil => rw [List.nil_append, splitAtChar, if_pos rfl]
  | cons c cs ih =>
    have hc : ¬ c = t := by
      intro hc
      exact h (hc ▸ List.mem_cons_self c cs)
    rw [List.cons_append, splitAtChar, if_neg hc,
      ih (fun hm => h (List.mem_cons_of_mem _ hm))]
    rfl

theorem splitAtSign_sound {s pre post : List Char} {c : Char}
    (h : splitAtSign s = some (pre, c, post)) :
    s = pre ++ c :: post ∧ isSignChar c ∧ ∀ d ∈ pre, ¬ isSignChar d := by
  induction s generalizing pre c post with
  | nil => simp [splitAtSign] at h
  | cons c0 cs ih =>
    rw [splitAtSign] at h
    by_cases hc : isSignChar c0
    · rw [if_pos hc] at h
      injection h with h
      rw [Prod.mk.injEq] at h
      obtain ⟨h1, h2⟩ := h
      rw [Prod.mk.injEq] at h2
      obtain ⟨h2, h3⟩ := h2
      subst h1 h2 h3
      exact ⟨rfl, hc, by simp⟩
    · rw [if_neg hc] at h
      rcases Option.map_eq_some.mp h with ⟨p, hp, hpe⟩
      obtain ⟨pre', c', post'⟩ := p
      have hsp := ih hp
      rw [Prod.mk.injEq] at hpe
      obtain ⟨h1, h2⟩ := hpe
      rw [Prod.mk.injEq] at h2
      obtain ⟨h2, h3⟩ := h2
      subst h1 h2 h3
      refine ⟨by rw [List.cons_append, hsp.1], hsp.2.1, ?_⟩
      intro d hd
      rcases List.mem_cons.1 hd with h4 | h4
      · subst h4
        exact hc
      · exact hsp.2.2 d h4

theorem splitAtSign_complete {pre post : List Char} {c : Char}
    (hpre : ∀ d ∈ pre, ¬ isSignChar d) (hc : isSignChar c) :
    splitAtSign (pre ++ c :: post) = some (pre, c, post) := by
  induction pre with
  | nil => rw [List.nil_append, splitAtSign, if_pos hc]
  | cons c0 cs ih =>
    rw [List.cons_append, splitAtSign,
      if_neg (hpre c0 (List.mem_cons_self _ _)),
      ih (fun d hd => hpre d (List.mem_cons_of_mem _ hd))]
    rfl

theorem parseDigits_sound {s : List Char} {n : Nat} (h : parseDigits s = some n) :
    IsNumeralStr s ∧ n = digitsToNat s := by
  rw [parseDigits] at h
  split at h
  · next hc =>
    injection h with h
    exact ⟨hc, h.symm⟩
  · exact Option.noConfusion h

theorem parseDigits_complete {s : List Char} (h : IsNumeralStr s) :
    parseDigits s = some (digitsToNat s) := by
  rw [parseDigits]
  split
  · rfl
  · next hc => exact absurd h hc

theorem parseU16_sound {s : List Char} {n : Nat} (h : parseU16 s = some n) :
    IsU16Str s ∧ n = u16Val s := by
  cases s with
  | nil =>
    rw [parseU16] at h
    rcases parseDigits_sound h with ⟨⟨hne, _, _⟩, _⟩
    exact absurd rfl hne
  | cons c rest =>
    rw [parseU16] at h
    by_cases hc : c = '+'
    · rw [if_pos hc] at h
      rcases parseDigits_sound h with ⟨hnum, hval⟩
      subst hc
      refine ⟨Or.inr ⟨rest, rfl, hnum⟩, ?_⟩
      rw [u16Val, if_pos rfl]
      exact hval
    · rw [if_neg hc] at h
      rcases parseDigits_sound h with ⟨hnum, hval⟩
      refine ⟨Or.inl hnum, ?_⟩
      rw [u16Val, if_neg hc]
      exact hval

theorem parseU16_complete {s : List Char} (h : IsU16Str s) :
    parseU16 s = some (u16Val s) := by
  rcases h with h | ⟨t, rfl, ht⟩
  · obtain ⟨hne, hdig, hb⟩ := h
    cases s with
    | nil => exact absurd rfl hne
    | cons c rest =>
      have hc : ¬ c = '+' := by
        intro hc
        have hd := hdig c (List.mem_cons_self _ _)
        rw [hc] at hd
        exact absurd hd (by decide)
      rw [parseU16, if_neg hc, u16Val, if_neg hc]
      exact parseDigits_complete ⟨hne, hdig, hb⟩
  · rw [parseU16, if_pos rfl, u16Val, if_pos rfl]
    exact parseDigits_complete ht

theorem not_sign_of_digit {c : Char} (h : c.isDigit = true) : ¬ isSignChar c := by
  intro hs
  rcases hs with rfl | rfl
  · exact absurd h (by decide)
  · exact absurd h (by decide)

theorem u16Val_of_numeral {s : List Char} (h : IsNumeralStr s) :
    u16Val s = digitsToNat s := by
  obtain ⟨hne, hdig, _⟩ := h
  cases s with
  | nil => rfl
  | cons c rest =>
    have hc : ¬ c = '+' := by
      intro hc
      have hd := hdig c (List.mem_cons_self _ _)
      rw [hc] at hd
      exact absurd hd (by decide)
    rw [u16Val, if_neg hc]

theorem x_not_mem_of_u16str {W : List Char} (h : IsU16Str W) : 'x' ∉ W := by
  intro hmem
  rcases h with h | ⟨t, rfl, ht⟩
  · exact absurd (h.2.1 'x' hmem) (by decide)
  · rcases List.mem_cons.1 hmem with h1 | h1
    · exact absurd h1 (by decide)
    · exact absurd (ht.2.1 'x' h1) (by decide)

theorem no_sign_of_numeral {s : List Char} (h : IsNumeralStr s) :
    ∀ d ∈ s, ¬ isSignChar d :=
  fun d hd => not_sign_of_digit (h.2.1 d hd)

theorem specAlignment_alignmentOfSigns {a b : Char} (ha : isSignChar a)
    (hb : isSignChar b) : SpecAlignment a b (alignmentOfSigns a b) := by
  rcases ha with rfl | rfl <;> rcases hb with rfl | rfl
  · exact Or.inl ⟨rfl, rfl, rfl⟩
  · exact Or.inr (Or.inr (Or.inr ⟨rfl, rfl, rfl⟩))
  · exact Or.inr (Or.inl ⟨rfl, rfl, rfl⟩)
  · exact Or.inr (Or.inr (Or.inl ⟨rfl, rfl, rfl⟩))

theorem alignment_eq_of_specAlignment {a b : Char} {al : Alignment}
    (h : SpecAlignment a b al) : al = alignmentOfSigns a b := by
  rcases h with ⟨rfl, rfl, rfl⟩ | ⟨rfl, rfl, rfl⟩ | ⟨rfl, rfl, rfl⟩ | ⟨rfl, rfl, rfl⟩ <;> rfl

theorem from_str_iff_amended (s : List Char) (g : AlignedGeometry) :
    aligned_geometry_from_str s = some g ↔ AmendedForm s g := by
  constructor
  · intro h
    rw [aligned_geometry_from_str] at h
    rcases Option.bind_eq_some.mp h with ⟨p1, hp1, h⟩
    rcases Option.bind_eq_some.mp h with ⟨width, hw, h⟩
    rcases Option.bind_eq_some.mp h with ⟨p2, hp2, h⟩
    rcases Option.bind_eq_some.mp h with ⟨height, hh, h⟩
    rcases Option.bind_eq_some.mp h with ⟨p3, hp3, h⟩
    rcases Option.bind_eq_some.mp h with ⟨xOff, hx, h⟩
    rcases Option.map_eq_some.mp h with ⟨yOff, hy, hg⟩
    obtain ⟨W, s1⟩ := p1
    obtain ⟨H, sg1, s2⟩ := p2
    obtain ⟨X, sg2, Y⟩ := p3
    dsimp only at hw hh hx hy hp2 hp3 hg
    obtain ⟨hs_eq, hxnW⟩ := splitAtChar_sound hp1
    obtain ⟨hs1_eq, hsg1, hHnosign⟩ := splitAtSign_sound hp2
    obtain ⟨hs2_eq, hsg2, hXnosign⟩ := splitAtSign_sound hp3
    obtain ⟨hWu, hwv⟩ := parseU16_sound hw
    obtain ⟨hHu, hhv⟩ := parseU16_sound hh
    obtain ⟨hXu, hxv⟩ := parseU16_sound hx
    obtain ⟨hYu, hyv⟩ := parseU16_sound hy
    have hHnum : IsNumeralStr H := by
      rcases hHu with h1 | ⟨t, ht, h1⟩
      · exact h1
      · exact absurd (Or.inl rfl : isSignChar '+')
          (hHnosign '+' (by rw [ht]; exact List.mem_cons_self _ _))
    have hXnum : IsNumeralStr X := by
      rcases hXu with h1 | ⟨t, ht, h1⟩
      · exact h1
      · exact absurd (Or.inl rfl : isSignChar '+')
          (hXnosign '+' (by rw [ht]; exact List.mem_cons_self _ _))
    subst hg
    refine ⟨W, H, X, Y, sg1, sg2, ?_, hWu, hHnum, hXnum, hYu, hsg1, hsg2, ?_, ?_, ?_, ?_, ?_⟩
    · rw [hs_eq, hs1_eq, hs2_eq]
    · exact specAlignment_alignmentOfSigns hsg1 hsg2
    · exact hwv
    · rw [← u16Val_of_numeral hHnum]
      exact hhv
    · rw [← u16Val_of_numeral hXnum]
      exact hxv
    · exact hyv
  · rintro ⟨W, H, X, Y, sg1, sg2, hs, hWu, hHnum, hXnum, hYu, hsg1, hsg2, halign,
      hw, hh, hx, hy⟩
    subst hs
    rw [aligned_geometry_from_str,
      splitAtChar_complete (x_not_mem_of_u16str hWu), Option.some_bind]
    rw [parseU16_complete hWu, Option.some_bind]
    rw [splitAtSign_complete (no_sign_of_numeral hHnum) hsg1, Option.some_bind]
    rw [parseU16_complete (Or.inl hHnum), Option.some_bind]
    rw [splitAtSign_complete (no_sign_of_numeral hXnum) hsg2, Option.some_bind]
    rw [parseU16_complete (Or.inl hXnum), Option.some_bind]
    rw [parseU16_complete hYu]
    rw [Option.map_some']
    dsimp only
    rw [u16Val_of_numeral hHnum, u16Val_of_numeral hXnum]
    obtain ⟨gx, gy, gw, gh, ga⟩ := g
    dsimp only at hw hh hx hy halign
    have hga := alignment_eq_of_specAlignment halign
    rw [hw, hh, hx, hy, hga]

/-- C2 (amended): parsing an `AlignedGeometry` string succeeds exactly for
inputs of the form `W 'x' H s1 X s2 Y` where `H` and `X` are non-negative
decimal numerals fitting `u16`, `W` and `Y` are such numerals optionally
preceded by a single `+` (Rust's unsigned parser accepts a leading plus),
and `s1, s2` are sign characters; the parsed tuple matches the components
with the alignment given by the sign table `(+,+) TopLeft, (-,+) TopRight,
(-,-) BottomRight, (+,-) BottomLeft`; empty inputs, inputs with leading or
trailing whitespace, negative dimensions, or missing components (a bare
`WxH`) are rejected. -/
theorem c2_from_str_amended :
    (∀ s g, aligned_geometry_from_str s = some g ↔ AmendedForm s g) ∧
    aligned_geometry_from_str [] = none ∧
    aligned_geometry_from_str ['4', '8', '0', 'x', '3', '6', '0'] = none ∧
    aligned_geometry_from_str
      ['1', '0', '0', 'x', '1', '0', '0', '-', '0', '-', '0', ' '] = none ∧
    aligned_geometry_from_str
      ['-', '1', '0', '0', 'x', '-', '1', '0', '0', '-', '0', '-', '0'] = none :=
  ⟨from_str_iff_amended, by decide, by decide, by decide, by decide⟩

theorem c2_from_str_amended_witness :
    AmendedForm ['4', '8', '0', 'x', '3', '6', '0', '-', '0', '-', '0']
      ⟨0, 0, 480, 360, Alignment.BottomRight⟩ :=
  (c2_from_str_amended.1 ['4', '8', '0', 'x', '3', '6', '0', '-', '0', '-', '0']
      ⟨0, 0, 480, 360, Alignment.BottomRight⟩).mp (by decide)

/-- C2 counterexample: the input `"+1x2+3+4"` parses successfully (Rust's
`u16::from_str` accepts the leading `+` on the width), but it is not of the
claimed form — its width component is not a plain decimal numeral — so the
claim's "succeeds exactly for" fails as stated. -/
theorem c2_counterexample :
    aligned_geometry_from_str ['+', '1', 'x', '2', '+', '3', '+', '4'] =
      some ⟨3, 4, 1, 2, Alignment.TopLeft⟩ ∧
    ¬ ∃ g, ClaimedForm ['+', '1', 'x', '2', '+', '3', '+', '4'] g := by
  constructor
  · decide
  · rintro ⟨g, W, H, X, Y, s1, s2, hs, hW, -, -, -, -, -, -, -, -, -, -⟩
    cases W with
    | nil =>
      rw [List.nil_append] at hs
      injection hs with h1 _
      exact absurd h1 (by decide)
    | cons c W' =>
      rw [List.cons_append] at hs
      injection hs with h1 _
      have hd := hW.2.1 c (List.mem_cons_self _ _)
      rw [← h1] at hd
      exact absurd hd (by decide)

theorem c9_into_geometry_fits_witness :
    AlignedGeometry.into_geometry ⟨0, 0, 100, 100, Alignment.TopRight⟩ 50 50 = none ∧
    ∃ x y,
      AlignedGeometry.into_geometry ⟨0, 0, 100, 100, Alignment.TopRight⟩ 200 200 =
        some (x, y) ∧ x + 100 ≤ 200 ∧ y + 100 ≤ 200 :=
  ⟨(c9_into_geometry_fits ⟨0, 0, 100, 100, Alignment.TopRight⟩ 50 50).1
      (Or.inl rfl) (by decide),
   (c9_into_geometry_fits ⟨0, 0, 100, 100, Alignment.TopRight⟩ 200 200).2.2
      (by decide) (by decide)⟩


/-! ## C3 and C4: the spec-modelled window manager of the `neopult` crate -/

namespace SpecWM

theorem nchange_fields {wm wm2 : NWindowManager} {tw th : Nat}
    (h : nchange_screen_resolution wm tw th = some wm2) :
    wm2.windows = wm.windows ∧ wm2.primary_window = wm.primary_window ∧
      wm2.size_range = wm.size_range := by
  rw [nchange_screen_resolution] at h
  split at h
  · exact absurd h (by simp)
  · split at h
    · injection h with h
      subst h
      exact ⟨rfl, rfl, rfl⟩
    · injection h with h
      subst h
      exact ⟨rfl, rfl, rfl⟩

theorem nchange_some_screen {wm wm2 : NWindowManager} {tw th : Nat}
    (h : nchange_screen_resolution wm tw th = some wm2) :
    wm2.screen_width = tw ∧ wm2.screen_height = th := by
  rw [nchange_screen_resolution] at h
  split at h
  · exact absurd h (by simp)
  · split at h
    · next he =>
      injection h with h
      subst h
      exact ⟨he.1, he.2⟩
    · injection h with h
      subst h
      exact ⟨rfl, rfl⟩

theorem nchange_none {wm : NWindowManager} {tw th : Nat}
    (h : nchange_screen_resolution wm tw th = none) :
    tw < wm.size_range.min_width ∨ wm.size_range.max_width < tw ∨
      th < wm.size_range.min_height ∨ wm.size_range.max_height < th := by
  rw [nchange_screen_resolution] at h
  split at h
  · next hc => exact hc
  · split at h
    · exact absurd h (by simp)
    · exact absurd h (by simp)

theorem demote_screen (wm1 : NWindowManager) (op : Option Nat) (id : Nat) :
    (demoteOldPrimary wm1 op id).1.screen_width = wm1.screen_width ∧
    (demoteOldPrimary wm1 op id).1.screen_height = wm1.screen_height ∧
    (demoteOldPrimary wm1 op id).1.size_range = wm1.size_range ∧
    (demoteOldPrimary wm1 op id).1.primary_window = wm1.primary_window := by
  cases op with
  | none => exact ⟨rfl, rfl, rfl, rfl⟩
  | some p =>
    rw [demoteOldPrimary]
    split
    · exact ⟨rfl, rfl, rfl, rfl⟩
    · split
      · exact ⟨rfl, rfl, rfl, rfl⟩
      · split
        · exact ⟨rfl, rfl, rfl, rfl⟩
        · exact ⟨rfl, rfl, rfl, rfl⟩

theorem demote_lookup_id (wm1 : NWindowManager) (op : Option Nat) (id : Nat) :
    lookupA (demoteOldPrimary wm1 op id).1.windows id = lookupA wm1.windows id := by
  cases op with
  | none => rfl
  | some p =>
    rw [demoteOldPrimary]
    split
    · rfl
    · next hp =>
      split
      · rfl
      · split
        · dsimp only
          exact lookupA_updateA_other _ _ (fun hee => hp hee.symm)
        · dsimp only
          exact lookupA_updateA_other _ _ (fun hee => hp hee.symm)

theorem demote_minimize {wm1 : NWindowManager} {a target : Nat} {wa : NWindow}
    (hne : ¬ a = target) (hla : lookupA wm1.windows a = some wa)
    (hdem : wa.primary_demotion_action = PrimaryDemotionAction.Minimize) :
    demoteOldPrimary wm1 (some a) target =
      ({ wm1 with
         windows := updateA (fun v => { v with mode := OldWM.Mode.Min }) wm1.windows a },
       []) := by
  rw [demoteOldPrimary, if_neg hne, hla]
  dsimp only
  rw [hdem]

theorem nmax_window_eq {wm : NWindowManager} {b w h : Nat} {m : Margin}
    {wb : NWindow} (hwb : lookupA wm.windows b = some wb) :
    nmax_window wm b w h m =
      ((nreposition_windows
          { (demoteOldPrimary
              { wm with
                windows :=
                  updateA (fun v => { v with mode := OldWM.Mode.Max w h }) wm.windows b }
              wm.primary_window b).1 with primary_window := some b } m).1,
       (if wb.mode = OldWM.Mode.Hidden then [WMEvent.mapWindow wb.id] else []) ++
         (demoteOldPrimary
            { wm with
              windows :=
                updateA (fun v => { v with mode := OldWM.Mode.Max w h }) wm.windows b }
            wm.primary_window b).2 ++
         (nreposition_windows
            { (demoteOldPrimary
                { wm with
                  windows :=
                    updateA (fun v => { v with mode := OldWM.Mode.Max w h }) wm.windows b }
                wm.primary_window b).1 with primary_window := some b } m).2) := by
  rw [nmax_window, hwb]

end SpecWM

/-- C3 (spec-modelled): when window `a` is the primary window and `max` is
invoked on a different window `b`, afterwards `b` is the sole primary
window, `a` — whose primary-demotion-action is the default `Minimize` —
leaves `Max` mode for `Min` mode, and (being virtual) `a` receives a
`set_geometry` call with its min-geometry during `b`'s `max`. -/
theorem c3_max_displaces_primary (wm : SpecWM.NWindowManager) (a b w h : Nat)
    (m : SpecWM.Margin) (wa wb : SpecWM.NWindow)
    (hprim : wm.primary_window = some a) (hab : ¬ a = b)
    (hwa : lookupA wm.windows a = some wa) (hidA : wa.id = a)
    (hdem : wa.primary_demotion_action = SpecWM.PrimaryDemotionAction.Minimize)
    (hvirtA : ∃ n, wa.variant = SpecWM.NVariant.VirtualWindow n)
    (hwb : lookupA wm.windows b = some wb) :
    SpecWM.nis_primary_window (SpecWM.nmax_window wm b w h m).1 b = true ∧
    SpecWM.nis_primary_window (SpecWM.nmax_window wm b w h m).1 a = false ∧
    (∃ wa', lookupA (SpecWM.nmax_window wm b w h m).1.windows a = some wa' ∧
      wa'.mode = OldWM.Mode.Min) ∧
    SpecWM.WMEvent.setGeometry a wa.min_geometry SpecWM.MIN_Z ∈
      (SpecWM.nmax_window wm b w h m).2 := by
  obtain ⟨n, hvn⟩ := hvirtA
  have hba : ¬ b = a := fun hcc => hab hcc.symm
  have hla1 : lookupA
      (updateA (fun v => { v with mode := OldWM.Mode.Max w h }) wm.windows b) a =
      some wa := by
    rw [lookupA_updateA_other _ _ hab]
    exact hwa
  have hlb : lookupA
      (updateA (fun v => { v with mode := OldWM.Mode.Min })
        (updateA (fun v => { v with mode := OldWM.Mode.Max w h }) wm.windows b) a) b =
      some { wb with mode := OldWM.Mode.Max w h } := by
    rw [lookupA_updateA_other _ _ hba, lookupA_updateA_self, hwb]
    rfl
  have hlookA : lookupA
      (updateA (fun v => { v with mode := OldWM.Mode.Min })
        (updateA (fun v => { v with mode := OldWM.Mode.Max w h }) wm.windows b) a) a =
      some { wa with mode := OldWM.Mode.Min } := by
    rw [lookupA_updateA_self, hla1]
    rfl
  have hmemA : (a, { wa with mode := OldWM.Mode.Min }) ∈
      updateA (fun v => { v with mode := OldWM.Mode.Min })
        (updateA (fun v => { v with mode := OldWM.Mode.Max w h }) wm.windows b) a :=
    mem_updateA_self _ (mem_updateA_other _ (lookupA_mem hwa) hab)
  have hev : SpecWM.WMEvent.setGeometry a wa.min_geometry SpecWM.MIN_Z ∈
      SpecWM.minModeEvents
        (updateA (fun v => { v with mode := OldWM.Mode.Min })
          (updateA (fun v => { v with mode := OldWM.Mode.Max w h }) wm.windows b) a) := by
    refine List.mem_flatMap.2 ⟨(a, { wa with mode := OldWM.Mode.Min }), hmemA, ?_⟩
    dsimp only
    rw [if_pos rfl, SpecWM.geometryEvent]
    dsimp only
    rw [hvn]
    dsimp only
    rw [hidA]
    exact List.mem_singleton.2 rfl
  rw [SpecWM.nmax_window_eq hwb, hprim, SpecWM.demote_minimize hab hla1 hdem]
  rw [SpecWM.nreposition_windows]
  dsimp only
  rw [hlb]
  dsimp only
  split
  · next x hx =>
    split
    · next wm2 hch =>
      have hf := SpecWM.nchange_fields hch
      dsimp only at hf
      refine ⟨?_, ?_, ?_, ?_⟩
      · simp [SpecWM.nis_primary_window, hf.2.1]
      · simp [SpecWM.nis_primary_window, hf.2.1, hba]
      · refine ⟨{ wa with mode := OldWM.Mode.Min }, ?_, rfl⟩
        rw [hf.1]
        exact hlookA
      · refine List.mem_append.2 (Or.inr ?_)
        refine List.mem_cons_of_mem _ ?_
        rw [hf.1]
        exact hev
    · next hch =>
      refine ⟨?_, ?_, ?_, ?_⟩
      · simp [SpecWM.nis_primary_window]
      · simp [SpecWM.nis_primary_window, hba]
      · exact ⟨{ wa with mode := OldWM.Mode.Min }, hlookA, rfl⟩
      · refine List.mem_append.2 (Or.inr ?_)
        refine List.mem_cons_of_mem _ ?_
        exact hev
  · next nm hx =>
    refine ⟨?_, ?_, ?_, ?_⟩
    · simp [SpecWM.nis_primary_window]
    · simp [SpecWM.nis_primary_window, hba]
    · exact ⟨{ wa with mode := OldWM.Mode.Min }, hlookA, rfl⟩
    · refine List.mem_append.2 (Or.inr ?_)
      refine List.mem_cons_of_mem _ ?_
      exact hev

theorem c3_max_displaces_primary_witness :
    SpecWM.nis_primary_window
      (SpecWM.nmax_window
        { screen_width := 1280, screen_height := 720,
          size_range := ⟨8, 8, 30000, 30000⟩, current_id := 2,
          windows :=
            [(0, { id := 0, variant := SpecWM.NVariant.VirtualWindow ['A'],
                   min_geometry := ⟨0, 0, 480, 360, Alignment.BottomRight⟩,
                   mode := OldWM.Mode.Max 1280 720,
                   primary_demotion_action := SpecWM.PrimaryDemotionAction.Minimize }),
             (1, { id := 1, variant := SpecWM.NVariant.VirtualWindow ['B'],
                   min_geometry := ⟨10, 20, 480, 360, Alignment.BottomRight⟩,
                   mode := OldWM.Mode.Min,
                   primary_demotion_action := SpecWM.PrimaryDemotionAction.Minimize })],
          primary_window := some 0 } 1 1920 1080 SpecWM.Margin.zero).1 1 = true ∧
    SpecWM.WMEvent.setGeometry 0 ⟨0, 0, 480, 360, Alignment.BottomRight⟩ SpecWM.MIN_Z ∈
      (SpecWM.nmax_window
        { screen_width := 1280, screen_height := 720,
          size_range := ⟨8, 8, 30000, 30000⟩, current_id := 2,
          windows :=
            [(0, { id := 0, variant := SpecWM.NVariant.VirtualWindow ['A'],
                   min_geometry := ⟨0, 0, 480, 360, Alignment.BottomRight⟩,
                   mode := OldWM.Mode.Max 1280 720,
                   primary_demotion_action := SpecWM.PrimaryDemotionAction.Minimize }),
             (1, { id := 1, variant := SpecWM.NVariant.VirtualWindow ['B'],
                   min_geometry := ⟨10, 20, 480, 360, Alignment.BottomRight⟩,
                   mode := OldWM.Mode.Min,
                   primary_demotion_action := SpecWM.PrimaryDemotionAction.Minimize })],
          primary_window := some 0 } 1 1920 1080 SpecWM.Margin.zero).2 :=
  ⟨(c3_max_displaces_primary _ 0 1 1920 1080 SpecWM.Margin.zero
      { id := 0, variant := SpecWM.NVariant.VirtualWindow ['A'],
        min_geometry := ⟨0, 0, 480, 360, Alignment.BottomRight⟩,
        mode := OldWM.Mode.Max 1280 720,
        primary_demotion_action := SpecWM.PrimaryDemotionAction.Minimize }
      { id := 1, variant := SpecWM.NVariant.VirtualWindow ['B'],
        min_geometry := ⟨10, 20, 480, 360, Alignment.BottomRight⟩,
        mode := OldWM.Mode.Min,
        primary_demotion_action := SpecWM.PrimaryDemotionAction.Minimize }
      rfl (by decide) (by decide) rfl rfl ⟨['A'], rfl⟩ (by decide)).1,
   (c3_max_displaces_primary _ 0 1 1920 1080 SpecWM.Margin.zero
      { id := 0, variant := SpecWM.NVariant.VirtualWindow ['A'],
        min_geometry := ⟨0, 0, 480, 360, Alignment.BottomRight⟩,
        mode := OldWM.Mode.Max 1280 720,
        primary_demotion_action := SpecWM.PrimaryDemotionAction.Minimize }
      { id := 1, variant := SpecWM.NVariant.VirtualWindow ['B'],
        min_geometry := ⟨10, 20, 480, 360, Alignment.BottomRight⟩,
        mode := OldWM.Mode.Min,
        primary_demotion_action := SpecWM.PrimaryDemotionAction.Minimize }
      rfl (by decide) (by decide) rfl rfl ⟨['A'], rfl⟩ (by decide)).2.2.2⟩

/-- C4 (spec-modelled): after `max(w,h)` makes a managed window the primary
window, the tracked screen resolution becomes `(w,h)` when the primary is
X-backed (for a target in the RandR size range, whose violation is a typed
error), while for a virtual primary the previous screen resolution stays
unchanged. -/
theorem c4_max_screen_resolution (wm : SpecWM.NWindowManager) (id w h : Nat)
    (m : SpecWM.Margin) (win : SpecWM.NWindow)
    (hwin : lookupA wm.windows id = some win)
    (hr1 : wm.size_range.min_width ≤ w) (hr2 : w ≤ wm.size_range.max_width)
    (hr3 : wm.size_range.min_height ≤ h) (hr4 : h ≤ wm.size_range.max_height) :
    ((∃ x, win.variant = SpecWM.NVariant.XWindow x) →
      (SpecWM.nmax_window wm id w h m).1.screen_width = w ∧
      (SpecWM.nmax_window wm id w h m).1.screen_height = h) ∧
    ((∃ n, win.variant = SpecWM.NVariant.VirtualWindow n) →
      (SpecWM.nmax_window wm id w h m).1.screen_width = wm.screen_width ∧
      (SpecWM.nmax_window wm id w h m).1.screen_height = wm.screen_height) := by
  have hscr := SpecWM.demote_screen
    { wm with
      windows := updateA (fun v => { v with mode := OldWM.Mode.Max w h }) wm.windows id }
    wm.primary_window id
  dsimp only at hscr
  rw [SpecWM.nmax_window_eq hwin]
  rw [SpecWM.nreposition_windows]
  dsimp only
  rw [SpecWM.demote_lookup_id]
  dsimp only
  rw [lookupA_updateA_self, hwin, Option.map_some']
  dsimp only
  split
  · next x hx =>
    split
    · next wm2 hch =>
      have hs := SpecWM.nchange_some_screen hch
      constructor
      · intro _
        exact hs
      · rintro ⟨nm, hn⟩
        rw [hx] at hn
        exact absurd hn (by intro hcc; cases hcc)
    · next hch =>
      have hout := SpecWM.nchange_none hch
      dsimp only at hout
      rw [hscr.2.2.1] at hout
      omega
  · next nm hx =>
    constructor
    · rintro ⟨x, hxx⟩
      rw [hx] at hxx
      exact absurd hxx (by intro hcc; cases hcc)
    · intro _
      dsimp only
      exact ⟨hscr.1, hscr.2.1⟩

theorem c4_max_screen_resolution_witness :
    ((SpecWM.nmax_window
        { screen_width := 1280, screen_height := 720,
          size_range := ⟨8, 8, 30000, 30000⟩, current_id := 1,
          windows :=
            [(0, { id := 0, variant := SpecWM.NVariant.XWindow 77,
                   min_geometry := ⟨0, 0, 480, 360, Alignment.BottomRight⟩,
                   mode := OldWM.Mode.Min,
                   primary_demotion_action := SpecWM.PrimaryDemotionAction.Minimize })],
          primary_window := none } 0 1920 1080 SpecWM.Margin.zero).1.screen_width = 1920 ∧
      (SpecWM.nmax_window
        { screen_width := 1280, screen_height := 720,
          size_range := ⟨8, 8, 30000, 30000⟩, current_id := 1,
          windows :=
            [(0, { id := 0, variant := SpecWM.NVariant.XWindow 77,
                   min_geometry := ⟨0, 0, 480, 360, Alignment.BottomRight⟩,
                   mode := OldWM.Mode.Min,
                   primary_demotion_action := SpecWM.PrimaryDemotionAction.Minimize })],
          primary_window := none } 0 1920 1080 SpecWM.Margin.zero).1.screen_height = 1080) ∧
    ((SpecWM.nmax_window
        { screen_width := 1280, screen_height := 720,
          size_range := ⟨8, 8, 30000, 30000⟩, current_id := 1,
          windows :=
            [(0, { id := 0, variant := SpecWM.NVariant.VirtualWindow ['V'],
                   min_geometry := ⟨0, 0, 480, 360, Alignment.BottomRight⟩,
                   mode := OldWM.Mode.Min,
                   primary_demotion_action := SpecWM.PrimaryDemotionAction.Minimize })],
          primary_window := none } 0 1920 1080 SpecWM.Margin.zero).1.screen_width = 1280 ∧
      (SpecWM.nmax_window
        { screen_width := 1280, screen_height := 720,
          size_range := ⟨8, 8, 30000, 30000⟩, current_id := 1,
          windows :=
            [(0, { id := 0, variant := SpecWM.NVariant.VirtualWindow ['V'],
                   min_geometry := ⟨0, 0, 480, 360, Alignment.BottomRight⟩,
                   mode := OldWM.Mode.Min,
                   primary_demotion_action := SpecWM.PrimaryDemotionAction.Minimize })],
          primary_window := none } 0 1920 1080 SpecWM.Margin.zero).1.screen_height = 720) :=
  ⟨(c4_max_screen_resolution _ 0 1920 1080 SpecWM.Margin.zero
      { id := 0, variant := SpecWM.NVariant.XWindow 77,
        min_geometry := ⟨0, 0, 480, 360, Alignment.BottomRight⟩,
        mode := OldWM.Mode.Min,
        primary_demotion_action := SpecWM.PrimaryDemotionAction.Minimize }
      (by decide) (by decide) (by decide) (by decide) (by decide)).1 ⟨77, rfl⟩,
   (c4_max_screen_resolution _ 0 1920 1080 SpecWM.Margin.zero
      { id := 0, variant := SpecWM.NVariant.VirtualWindow ['V'],
        min_geometry := ⟨0, 0, 480, 360, Alignment.BottomRight⟩,
        mode := OldWM.Mode.Min,
        primary_demotion_action := SpecWM.PrimaryDemotionAction.Minimize }
      (by decide) (by decide) (by decide) (by decide) (by decide)).2 ⟨['V'], rfl⟩⟩

/-! ## C5: the stale-PID sweep -/

/-- C5 (amended): a directory entry not ending in `.pid` is skipped; an
entry whose (`.pid`-stripped) name parses to a positive pid is removed —
after SIGINT, a poll of up to the grace period, and SIGKILL when the
process is still alive, if the pid was alive at all; an entry parsing to a
non-positive number is only warned about and kept; an entry with a
non-numeric name is kept and an error (not a warning) is logged; the poll
interval is 50 ms and the grace period 2500 ms. -/
theorem c5_stale_pid_sweep (alive survives : Nat → Bool) (name : List Char) :
    (Plugin.OLD_PROCESS_SHUTDOWN_GRACE_PERIOD_MS = 2500 ∧
      Plugin.OLD_PROCESS_SHUTDOWN_POLL_INTERVAL_MS = 50) ∧
    (Plugin.endsWithL Plugin.pidSuffix name = false →
      Plugin.sweep_file alive survives name = []) ∧
    (∀ pid : Int, Plugin.endsWithL Plugin.pidSuffix name = true →
      Plugin.parseI32 (Plugin.trimEndPid name) = some pid → 0 < pid →
      alive pid.toNat = false →
      Plugin.sweep_file alive survives name = [Plugin.SweepAction.removeFile name]) ∧
    (∀ pid : Int, Plugin.endsWithL Plugin.pidSuffix name = true →
      Plugin.parseI32 (Plugin.trimEndPid name) = some pid → 0 < pid →
      alive pid.toNat = true →
      Plugin.sweep_file alive survives name =
        Plugin.SweepAction.sigint pid.toNat ::
          ((if survives pid.toNat then [Plugin.SweepAction.sigkill pid.toNat] else []) ++
            [Plugin.SweepAction.removeFile name])) ∧
    (∀ pid : Int, Plugin.endsWithL Plugin.pidSuffix name = true →
      Plugin.parseI32 (Plugin.trimEndPid name) = some pid → pid ≤ 0 →
      Plugin.sweep_file alive survives name = [Plugin.SweepAction.warnInvalidPid pid]) ∧
    (Plugin.endsWithL Plugin.pidSuffix name = true →
      Plugin.parseI32 (Plugin.trimEndPid name) = none →
      Plugin.sweep_file alive survives name = [Plugin.SweepAction.errorParse name]) := by
  refine ⟨⟨rfl, rfl⟩, ?_, ?_, ?_, ?_, ?_⟩
  · intro h
    rw [Plugin.sweep_file, if_neg (by simp [h])]
  · intro pid h1 h2 h3 h4
    rw [Plugin.sweep_file, if_pos h1, h2]
    dsimp only
    rw [if_pos h3, if_neg (by simp [h4]), List.nil_append]
  · intro pid h1 h2 h3 h4
    rw [Plugin.sweep_file, if_pos h1, h2]
    dsimp only
    rw [if_pos h3, if_pos h4, Plugin.kill_old_process, List.cons_append]
  · intro pid h1 h2 h3
    rw [Plugin.sweep_file, if_pos h1, h2]
    dsimp only
    rw [if_neg (by omega)]
  · intro h1 h2
    rw [Plugin.sweep_file, if_pos h1, h2]

theorem c5_stale_pid_sweep_witness :
    Plugin.sweep_file (fun _ => false) (fun _ => false)
      ['9', '9', '9', '9', '9', '9', '9', '9', '.', 'p', 'i', 'd'] =
      [Plugin.SweepAction.removeFile
        ['9', '9', '9', '9', '9', '9', '9', '9', '.', 'p', 'i', 'd']] ∧
    Plugin.sweep_file (fun _ => true) (fun _ => true) ['1', '7', '.', 'p', 'i', 'd'] =
      Plugin.SweepAction.sigint 17 ::
        ((if (fun (_ : Nat) => true) 17 then [Plugin.SweepAction.sigkill 17] else []) ++
          [Plugin.SweepAction.removeFile ['1', '7', '.', 'p', 'i', 'd']]) :=
  ⟨(c5_stale_pid_sweep (fun _ => false) (fun _ => false)
      ['9', '9', '9', '9', '9', '9', '9', '9', '.', 'p', 'i', 'd']).2.2.1 99999999
      (by decide) (by decide) (by decide) (by decide),
   (c5_stale_pid_sweep (fun _ => true) (fun _ => true)
      ['1', '7', '.', 'p', 'i', 'd']).2.2.2.1 17
      (by decide) (by decide) (by decide) (by decide)⟩

/-- C5 counterexample: a `.pid` file with a non-numeric name is NOT
removed — the sweep only logs a parse error (not a warning) and keeps the
file, contradicting the claim that such files are also removed with a
warning logged. -/
theorem c5_counterexample :
    Plugin.clean_old_processes (fun _ => false) (fun _ => false)
        [['n', 'o', 't', 'a', 'p', 'i', 'd', '.', 'p', 'i', 'd']] =
      [Plugin.SweepAction.errorParse
        ['n', 'o', 't', 'a', 'p', 'i', 'd', '.', 'p', 'i', 'd']] ∧
    Plugin.SweepAction.removeFile ['n', 'o', 't', 'a', 'p', 'i', 'd', '.', 'p', 'i', 'd'] ∉
      Plugin.clean_old_processes (fun _ => false) (fun _ => false)
        [['n', 'o', 't', 'a', 'p', 'i', 'd', '.', 'p', 'i', 'd']] := by
  decide

/-! ## C6: active actions are not validated against registered actions -/

/-- C6 counterexample: `set_active_actions` performs no validation, so a
name that names no registered action ends up in the active-actions set and
the claimed subset invariant fails. -/
theorem c6_counterexample :
    ("ghost") ∈ (Plugin.set_active_actions (Plugin.Module.new ("m") ("p") none)
        [("ghost")]).active_actions ∧
    ¬ Plugin.ActiveActionsSubset
        (Plugin.set_active_actions (Plugin.Module.new ("m") ("p") none) [("ghost")]) := by
  constructor
  · exact List.mem_singleton.2 rfl
  · intro h
    rcases h ("ghost") (List.mem_singleton.2 rfl) with ⟨a, ha, _⟩
    simp [Plugin.set_active_actions, Plugin.Module.new] at ha

/-- C6 (amended): `set_active_actions(xs)` replaces the module's
active-actions set by exactly the names in `xs`, leaving the registered
actions unchanged and performing no validation; the subset invariant holds
after the call exactly when the caller passes only registered names. -/
theorem c6_set_active_actions_amended (m : Plugin.Module) (xs : List String) :
    (Plugin.set_active_actions m xs).active_actions = xs ∧
    (Plugin.set_active_actions m xs).actions = m.actions ∧
    ((∀ x ∈ xs, ∃ a ∈ m.actions, a.name = x) →
      Plugin.ActiveActionsSubset (Plugin.set_active_actions m xs)) := by
  refine ⟨rfl, rfl, ?_⟩
  intro hsub x hx
  exact hsub x hx

theorem c6_set_active_actions_amended_witness :
    (Plugin.set_active_actions
        (Plugin.register_action (Plugin.Module.new ("m") ("p") none) ("start") none)
        [("start")]).active_actions = [("start")] ∧
    Plugin.ActiveActionsSubset
      (Plugin.set_active_actions
        (Plugin.register_action (Plugin.Module.new ("m") ("p") none) ("start") none)
        [("start")]) :=
  ⟨(c6_set_active_actions_amended
      (Plugin.register_action (Plugin.Module.new ("m") ("p") none) ("start") none)
      [("start")]).1,
   (c6_set_active_actions_amended
      (Plugin.register_action (Plugin.Module.new ("m") ("p") none) ("start") none)
      [("start")]).2.2 (by decide)⟩

/-! ## C8: the store's set/subscribe/unsubscribe protocol -/

theorem count_map_pair {V : Type} [DecidableEq V] (l : List Nat) (k : Nat) (v : V) :
    (l.map (fun j => (j, v))).count (k, v) = l.count k := by
  induction l with
  | nil => rfl
  | cons a t ih =>
    rw [List.map_cons, List.count_cons, List.count_cons, ih]
    by_cases h : a = k
    · simp [h]
    · simp [h]

/-- C8: a `set(v)` on a store replaces the value by `v` and invokes every
subscriber registered at the moment of the call exactly once with `v`;
subscribe/unsubscribe effects of the callbacks (abstracted by `step`) do
not change which callbacks are invoked for the in-progress `set` — the
invocation list is independent of `step` — and only show up in the
subscriber list used by future `set`s. -/
theorem c8_store_set (V : Type) [DecidableEq V]
    (step step' : Nat → List Nat → List Nat) (s : Plugin.Store V) (v : V)
    (hnd : s.subscribers.Nodup) :
    (Plugin.store_set step s v).1.value = v ∧
    (∀ k, k ∈ s.subscribers → (Plugin.store_set step s v).2.count (k, v) = 1) ∧
    (∀ p ∈ (Plugin.store_set step s v).2, p.1 ∈ s.subscribers ∧ p.2 = v) ∧
    (Plugin.store_set step s v).2 = (Plugin.store_set step' s v).2 ∧
    (Plugin.store_set step s v).1.subscribers =
      s.subscribers.foldl (fun cur k => step k cur) s.subscribers := by
  refine ⟨rfl, ?_, ?_, rfl, rfl⟩
  · intro k hk
    rw [Plugin.store_set]
    dsimp only
    rw [count_map_pair]
    exact List.count_eq_one_of_mem hnd hk
  · intro p hp
    rw [Plugin.store_set] at hp
    dsimp only at hp
    rcases List.mem_map.1 hp with ⟨j, hj, hje⟩
    subst hje
    exact ⟨hj, rfl⟩

theorem c8_store_set_witness :
    (Plugin.store_set (fun _ cur => cur ++ [99])
        { value := 0, subscribers := [1, 2] } 5).1.value = 5 ∧
    (Plugin.store_set (fun _ cur => cur ++ [99])
        { value := 0, subscribers := [1, 2] } 5).2.count (1, 5) = 1 ∧
    (Plugin.store_set (fun _ cur => cur ++ [99])
        { value := 0, subscribers := [1, 2] } 5).2 =
      (Plugin.store_set (fun _ cur => cur)
        { value := 0, subscribers := [1, 2] } 5).2 :=
  ⟨(c8_store_set Nat (fun _ cur => cur ++ [99]) (fun _ cur => cur)
      { value := 0, subscribers := [1, 2] } 5 (by decide)).1,
   (c8_store_set Nat (fun _ cur => cur ++ [99]) (fun _ cur => cur)
      { value := 0, subscribers := [1, 2] } 5 (by decide)).2.1 1 (by decide),
   (c8_store_set Nat (fun _ cur => cur ++ [99]) (fun _ cur => cur)
      { value := 0, subscribers := [1, 2] } 5 (by decide)).2.2.2.1⟩

/-! ## C10: `escape_html` -/

theorem replaceChar_append (p : Char) (r a b : List Char) :
    Plugin.replaceChar p r (a ++ b) =
      Plugin.replaceChar p r a ++ Plugin.replaceChar p r b := by
  simp [Plugin.replaceChar]

theorem escape_cons (c : Char) (t : List Char) :
    Plugin.escape_html (c :: t) =
      Plugin.escape_html [c] ++ Plugin.escape_html t := by
  simp only [Plugin.escape_html]
  rw [show (c :: t) = [c] ++ t from rfl]
  rw [replaceChar_append, replaceChar_append, replaceChar_append, replaceChar_append,
    replaceChar_append]

theorem escape_single (c : Char) :
    Plugin.escape_html [c] = Plugin.encodeChar c := by
  rw [Plugin.encodeChar]
  split_ifs with h1 h2 h3 h4 h5
  · subst h1
    decide
  · subst h2
    decide
  · subst h3
    decide
  · subst h4
    decide
  · subst h5
    decide
  · have e1 : Plugin.replaceChar '&' Plugin.entAmp [c] = [c] := by
      simp [Plugin.replaceChar, h1]
    have e2 : Plugin.replaceChar '<' Plugin.entLt [c] = [c] := by
      simp [Plugin.replaceChar, h2]
    have e3 : Plugin.replaceChar '>' Plugin.entGt [c] = [c] := by
      simp [Plugin.replaceChar, h3]
    have e4 : Plugin.replaceChar Plugin.quoteChar Plugin.entQuot [c] = [c] := by
      simp [Plugin.replaceChar, h4]
    have e5 : Plugin.replaceChar Plugin.aposChar Plugin.entApos [c] = [c] := by
      simp [Plugin.replaceChar, h5]
    rw [Plugin.escape_html, e1, e2, e3, e4, e5]

theorem escape_flatMap (s : List Char) :
    Plugin.escape_html s = s.flatMap Plugin.encodeChar := by
  induction s with
  | nil => rfl
  | cons c t ih => rw [escape_cons, escape_single, ih, List.flatMap_cons]

theorem startsWithL_prefix (p x : List Char) :
    Plugin.startsWithL p (p ++ x) = true := by
  induction p with
  | nil => rfl
  | cons a t ih =>
    rw [List.cons_append, Plugin.startsWithL]
    simp [ih]

theorem unescapeAux_flatMap : ∀ (fuel : Nat) (s : List Char),
    (s.flatMap Plugin.encodeChar).length ≤ fuel →
    Plugin.unescapeAux fuel (s.flatMap Plugin.encodeChar) = s := by
  intro fuel
  induction fuel with
  | zero =>
    intro s hs
    cases s with
    | nil => rfl
    | cons c t =>
      exfalso
      rw [List.flatMap_cons, List.length_append] at hs
      have hpos : 0 < (Plugin.encodeChar c).length := by
        rw [Plugin.encodeChar]
        split_ifs <;>
          simp [Plugin.entAmp, Plugin.entLt, Plugin.entGt, Plugin.entQuot, Plugin.entApos]
      omega
  | succ f ih =>
    intro s hs
    cases s with
    | nil => rfl
    | cons c t =>
      rw [List.flatMap_cons] at hs ⊢
      rw [List.length_append] at hs
      rw [Plugin.encodeChar] at hs ⊢
      split_ifs with h1 h2 h3 h4 h5
      · subst h1
        rw [Plugin.entAmp] at hs ⊢
        rw [List.cons_append, List.cons_append, List.cons_append, List.cons_append,
          List.cons_append, List.nil_append, Plugin.unescapeAux]
        rw [if_pos ⟨rfl, startsWithL_prefix ['a', 'm', 'p', ';'] _⟩]
        rw [show List.drop 4 ('a' :: 'm' :: 'p' :: ';' :: t.flatMap Plugin.encodeChar) =
          t.flatMap Plugin.encodeChar from rfl]
        rw [ih t (by simp [Plugin.quoteChar, Plugin.aposChar, Plugin.entAmp, Plugin.entLt, Plugin.entGt, Plugin.entQuot, Plugin.entApos] at hs ⊢; omega)]
      · subst h2
        rw [Plugin.entLt] at hs ⊢
        rw [List.cons_append, List.cons_append, List.cons_append, List.cons_append,
          List.nil_append, Plugin.unescapeAux]
        rw [if_neg (by rintro ⟨-, hsw⟩; simp [Plugin.startsWithL] at hsw)]
        rw [if_pos ⟨rfl, startsWithL_prefix ['l', 't', ';'] _⟩]
        rw [show List.drop 3 ('l' :: 't' :: ';' :: t.flatMap Plugin.encodeChar) =
          t.flatMap Plugin.encodeChar from rfl]
        rw [ih t (by simp [Plugin.quoteChar, Plugin.aposChar, Plugin.entAmp, Plugin.entLt, Plugin.entGt, Plugin.entQuot, Plugin.entApos] at hs ⊢; omega)]
      · subst h3
        rw [Plugin.entGt] at hs ⊢
        rw [List.cons_append, List.cons_append, List.cons_append, List.cons_append,
          List.nil_append, Plugin.unescapeAux]
        rw [if_neg (by rintro ⟨-, hsw⟩; simp [Plugin.startsWithL] at hsw)]
        rw [if_neg (by rintro ⟨-, hsw⟩; simp [Plugin.startsWithL] at hsw)]
        rw [if_pos ⟨rfl, startsWithL_prefix ['g', 't', ';'] _⟩]
        rw [show List.drop 3 ('g' :: 't' :: ';' :: t.flatMap Plugin.encodeChar) =
          t.flatMap Plugin.encodeChar from rfl]
        rw [ih t (by simp [Plugin.quoteChar, Plugin.aposChar, Plugin.entAmp, Plugin.entLt, Plugin.entGt, Plugin.entQuot, Plugin.entApos] at hs ⊢; omega)]
      · subst h4
        rw [Plugin.entQuot] at hs ⊢
        rw [List.cons_append, List.cons_append, List.cons_append, List.cons_append,
          List.cons_append, List.cons_append, List.nil_append, Plugin.unescapeAux]
        rw [if_neg (by rintro ⟨-, hsw⟩; simp [Plugin.startsWithL] at hsw)]
        rw [if_neg (by rintro ⟨-, hsw⟩; simp [Plugin.startsWithL] at hsw)]
        rw [if_neg (by rintro ⟨-, hsw⟩; simp [Plugin.startsWithL] at hsw)]
        rw [if_pos ⟨rfl, startsWithL_prefix ['q', 'u', 'o', 't', ';'] _⟩]
        rw [show List.drop 5 ('q' :: 'u' :: 'o' :: 't' :: ';' :: t.flatMap Plugin.encodeChar) =
          t.flatMap Plugin.encodeChar from rfl]
        rw [ih t (by simp [Plugin.quoteChar, Plugin.aposChar, Plugin.entAmp, Plugin.entLt, Plugin.entGt, Plugin.entQuot, Plugin.entApos] at hs ⊢; omega)]
      · subst h5
        rw [Plugin.entApos] at hs ⊢
        rw [List.cons_append, List.cons_append, List.cons_append, List.cons_append,
          List.cons_append, List.cons_append, List.nil_append, Plugin.unescapeAux]
        rw [if_neg (by rintro ⟨-, hsw⟩; simp [Plugin.startsWithL] at hsw)]
        rw [if_neg (by rintro ⟨-, hsw⟩; simp [Plugin.startsWithL] at hsw)]
        rw [if_neg (by rintro ⟨-, hsw⟩; simp [Plugin.startsWithL] at hsw)]
        rw [if_neg (by rintro ⟨-, hsw⟩; simp [Plugin.startsWithL] at hsw)]
        rw [if_pos ⟨rfl, startsWithL_prefix ['#', '0', '3', '9', ';'] _⟩]
        rw [show List.drop 5 ('#' :: '0' :: '3' :: '9' :: ';' :: t.flatMap Plugin.encodeChar) =
          t.flatMap Plugin.encodeChar from rfl]
        rw [ih t (by simp [Plugin.quoteChar, Plugin.aposChar, Plugin.entAmp, Plugin.entLt, Plugin.entGt, Plugin.entQuot, Plugin.entApos] at hs ⊢; omega)]
      · rw [List.singleton_append, Plugin.unescapeAux]
        rw [if_neg (by rintro ⟨hc, -⟩; exact h1 hc)]
        rw [if_neg (by rintro ⟨hc, -⟩; exact h1 hc)]
        rw [if_neg (by rintro ⟨hc, -⟩; exact h1 hc)]
        rw [if_neg (by rintro ⟨hc, -⟩; exact h1 hc)]
        rw [if_neg (by rintro ⟨hc, -⟩; exact h1 hc)]
        rw [if_neg h1, if_neg h2, if_neg h3, if_neg h4, if_neg h5] at hs
        rw [ih t (by simp at hs ⊢; omega)]

theorem unescape_escape (s : List Char) :
    Plugin.unescape_html (Plugin.escape_html s) = s := by
  rw [Plugin.unescape_html, escape_flatMap]
  exact unescapeAux_flatMap _ s (Nat.le_refl _)

theorem escape_injective {s t : List Char}
    (h : Plugin.escape_html s = Plugin.escape_html t) : s = t := by
  have hs := unescape_escape s
  rw [h, unescape_escape t] at hs
  exact hs.symm

theorem escape_no_specials (s : List Char) :
    ∀ c ∈ Plugin.escape_html s,
      c ≠ '<' ∧ c ≠ '>' ∧ c ≠ Plugin.quoteChar ∧ c ≠ Plugin.aposChar := by
  intro c hc
  rw [escape_flatMap] at hc
  rcases List.mem_flatMap.1 hc with ⟨d, hd, hcd⟩
  rw [Plugin.encodeChar] at hcd
  split_ifs at hcd with h1 h2 h3 h4 h5
  · rw [Plugin.entAmp] at hcd
    simp at hcd
    rcases hcd with rfl | rfl | rfl | rfl | rfl <;>
      exact ⟨by decide, by decide, by decide, by decide⟩
  · rw [Plugin.entLt] at hcd
    simp at hcd
    rcases hcd with rfl | rfl | rfl | rfl <;>
      exact ⟨by decide, by decide, by decide, by decide⟩
  · rw [Plugin.entGt] at hcd
    simp at hcd
    rcases hcd with rfl | rfl | rfl | rfl <;>
      exact ⟨by decide, by decide, by decide, by decide⟩
  · rw [Plugin.entQuot] at hcd
    simp at hcd
    rcases hcd with rfl | rfl | rfl | rfl | rfl | rfl <;>
      exact ⟨by decide, by decide, by decide, by decide⟩
  · rw [Plugin.entApos] at hcd
    simp at hcd
    rcases hcd with rfl | rfl | rfl | rfl | rfl | rfl <;>
      exact ⟨by decide, by decide, by decide, by decide⟩
  · simp at hcd
    subst hcd
    exact ⟨h2, h3, h4, h5⟩

theorem drop_head_get {l : List Char} {i : Nat} {c : Char} {r : List Char}
    (h : l.drop i = c :: r) : l.get? i = some c := by
  induction l generalizing i with
  | nil => rw [List.drop_nil] at h; cases h
  | cons a t ih =>
    cases i with
    | zero =>
      rw [List.drop_zero] at h
      injection h with h1 _
      rw [h1]
      rfl
    | succ j =>
      rw [List.drop_succ_cons] at h
      exact ih h

theorem escape_amp_entity (s : List Char) : ∀ (i : Nat) (r : List Char),
    (Plugin.escape_html s).drop i = '&' :: r →
    ∃ e u, (e = Plugin.entAmp ∨ e = Plugin.entLt ∨ e = Plugin.entGt ∨
        e = Plugin.entQuot ∨ e = Plugin.entApos) ∧
      (Plugin.escape_html s).drop i = e ++ u := by
  induction s with
  | nil =>
    intro i r h
    rw [show Plugin.escape_html [] = [] from rfl, List.drop_nil] at h
    cases h
  | cons c t ih =>
    intro i r h
    rw [escape_cons, escape_single] at h ⊢
    by_cases hlen : i < (Plugin.encodeChar c).length
    · rcases Nat.eq_zero_or_pos i with hi0 | hipos
      · subst hi0
        rw [List.drop_zero] at h ⊢
        rw [Plugin.encodeChar] at h ⊢
        split_ifs at h ⊢ with h1 h2 h3 h4 h5
        · exact ⟨Plugin.entAmp, _, Or.inl rfl, rfl⟩
        · exact ⟨Plugin.entLt, _, Or.inr (Or.inl rfl), rfl⟩
        · exact ⟨Plugin.entGt, _, Or.inr (Or.inr (Or.inl rfl)), rfl⟩
        · exact ⟨Plugin.entQuot, _, Or.inr (Or.inr (Or.inr (Or.inl rfl))), rfl⟩
        · exact ⟨Plugin.entApos, _, Or.inr (Or.inr (Or.inr (Or.inr rfl))), rfl⟩
        · rw [List.singleton_append] at h
          injection h with hc _
          exact absurd hc h1
      · exfalso
        have hg := drop_head_get h
        rw [List.get?_append hlen] at hg
        by_cases h1 : c = '&'
        · subst h1
          rw [show Plugin.encodeChar '&' = Plugin.entAmp from rfl] at hg hlen
          have hlen5 : i < 5 := by simpa [Plugin.entAmp] using hlen
          rw [Plugin.entAmp] at hg
          interval_cases i <;> exact absurd hg (by decide)
        · by_cases h2 : c = '<'
          · subst h2
            rw [show Plugin.encodeChar '<' = Plugin.entLt from rfl] at hg hlen
            have hlen4 : i < 4 := by simpa [Plugin.entLt] using hlen
            rw [Plugin.entLt] at hg
            interval_cases i <;> exact absurd hg (by decide)
          · by_cases h3 : c = '>'
            · subst h3
              rw [show Plugin.encodeChar '>' = Plugin.entGt from rfl] at hg hlen
              have hlen4 : i < 4 := by simpa [Plugin.entGt] using hlen
              rw [Plugin.entGt] at hg
              interval_cases i <;> exact absurd hg (by decide)
            · by_cases h4 : c = Plugin.quoteChar
              · subst h4
                rw [show Plugin.encodeChar Plugin.quoteChar = Plugin.entQuot from rfl]
                  at hg hlen
                have hlen6 : i < 6 := by simpa [Plugin.entQuot] using hlen
                rw [Plugin.entQuot] at hg
                interval_cases i <;> exact absurd hg (by decide)
              · by_cases h5 : c = Plugin.aposChar
                · subst h5
                  rw [show Plugin.encodeChar Plugin.aposChar = Plugin.entApos from rfl]
                    at hg hlen
                  have hlen6 : i < 6 := by simpa [Plugin.entApos] using hlen
                  rw [Plugin.entApos] at hg
                  interval_cases i <;> exact absurd hg (by decide)
                · have henc : Plugin.encodeChar c = [c] := by
                    rw [Plugin.encodeChar, if_neg h1, if_neg h2, if_neg h3, if_neg h4,
                      if_neg h5]
                  rw [henc] at hlen
                  simp at hlen
                  omega
    · push_neg at hlen
      have hsplit : (Plugin.encodeChar c ++ Plugin.escape_html t).drop i =
          (Plugin.escape_html t).drop (i - (Plugin.encodeChar c).length) := by
        rw [List.drop_append_eq_append_drop, List.drop_eq_nil_of_le hlen,
          List.nil_append]
      rw [hsplit] at h ⊢
      rcases ih _ _ h with ⟨e, u, he, hd⟩
      exact ⟨e, u, he, hd⟩

/-- C10: `escape_html` replaces `&` before the other special characters,
so the output contains no `<`, `>`, double quote or apostrophe, and every
`&` in the output starts one of the five entities; the function is
injective, and replacing each entity back by its character
(`unescape_html`) recovers the input exactly. -/
theorem c10_escape_html (s : List Char) :
    (∀ c ∈ Plugin.escape_html s,
      c ≠ '<' ∧ c ≠ '>' ∧ c ≠ Plugin.quoteChar ∧ c ≠ Plugin.aposChar) ∧
    (∀ (i : Nat) (r : List Char),
      (Plugin.escape_html s).drop i = '&' :: r →
      ∃ e u, (e = Plugin.entAmp ∨ e = Plugin.entLt ∨ e = Plugin.entGt ∨
          e = Plugin.entQuot ∨ e = Plugin.entApos) ∧
        (Plugin.escape_html s).drop i = e ++ u) ∧
    (∀ t, Plugin.escape_html s = Plugin.escape_html t → s = t) ∧
    Plugin.unescape_html (Plugin.escape_html s) = s :=
  ⟨escape_no_specials s, escape_amp_entity s, fun _ h => escape_injective h,
   unescape_escape s⟩

theorem c10_escape_html_witness :
    ('a' ≠ '<' ∧ 'a' ≠ '>' ∧ 'a' ≠ Plugin.quoteChar ∧ 'a' ≠ Plugin.aposChar) ∧
    (∃ e u, (e = Plugin.entAmp ∨ e = Plugin.entLt ∨ e = Plugin.entGt ∨
        e = Plugin.entQuot ∨ e = Plugin.entApos) ∧
      (Plugin.escape_html ['a', '&', 'b']).drop 1 = e ++ u) ∧
    Plugin.unescape_html (Plugin.escape_html ['a', '&', '<', 'b']) = ['a', '&', '<', 'b'] :=
  ⟨(c10_escape_html ['a', '&', 'b']).1 'a' (by decide),
   (c10_escape_html ['a', '&', 'b']).2.1 1 ['a', 'm', 'p', ';', 'b'] (by decide),
   (c10_escape_html ['a', '&', '<', 'b']).2.2.2⟩

end Neopult
